import Mathlib

/-!
Verification of the klite message-queue core (producer batcher, consumer
offset engine, dispatcher worker) against its natural-language specification.

The store (a SQLite-class engine) is modelled as an idealized SQL backend:
per-partition tables are lists of rows with an autoincrement counter
(first rowid is 1, `lastInsertRowid` reported per statement), the shared
`klite_consumer_offsets` table is a list of rows guarded by its composite
primary key, and I/O faults are out of scope.  Message payloads and the
MessagePack codec are opaque: `encode`/`decode` form a lossless pair and the
store sees only bytes.  Timestamps (`created`, `updated_at`) are omitted; no
claim depends on them.  All functions below are direct translations of
`src/klite/src/producer.js` (producer and consumer halves) and
`src/klite/src/worker.js`; timer scheduling is made explicit by calling
`flushBatch` where the timer would fire.
-/

namespace Klite

/-- Opaque message payload value (the JS object handed to `send`). -/
abbrev Msg := Nat

/-- Codec-encoded payload bytes (MessagePack output), opaque to the store. -/
abbrev Payload := List Nat

/-- `encode` from `@msgpack/msgpack`: an injective, opaque byte encoding. -/
def encode (m : Msg) : Payload := [m]

/-- `decode` from `@msgpack/msgpack`: left inverse of `encode`. -/
def decode (b : Payload) : Msg := b.headD 0

/-- A runtime error carrying its message text (JS `Error`). -/
structure Err where
  message : String
deriving DecidableEq, Repr

/-! ### Association-list helpers (JS `Map` keyed by string) -/

/-- `Map.get`: first binding for the key, if any. -/
def lookupKey {α : Type} : List (String × α) → String → Option α
  | [], _ => none
  | (k', v) :: tl, k => if k' = k then some v else lookupKey tl k

/-- `Map.delete`: remove all bindings for the key. -/
def eraseKey {α : Type} : List (String × α) → String → List (String × α)
  | [], _ => []
  | (k', v) :: tl, k => if k' = k then eraseKey tl k else (k', v) :: eraseKey tl k

/-- `Map.set` on an existing key: replace its binding in place. -/
def updateKey {α : Type} : List (String × α) → String → α → List (String × α)
  | [], _, _ => []
  | (k', v) :: tl, k, w => if k' = k then (k, w) :: updateKey tl k w else (k', v) :: updateKey tl k w

/-- JS `String.prototype.split(":")` on the character list. -/
def splitOnColon : List Char → List (List Char)
  | [] => [[]]
  | c :: tl =>
    if c = ':' then [] :: splitOnColon tl
    else
      match splitOnColon tl with
      | [] => [[c]]
      | h :: t => (c :: h) :: t

/-- Substring test on character lists (JS `String.prototype.includes`). -/
def listIsSub (pat : List Char) : List Char → Bool
  | [] => pat.isEmpty
  | c :: tl => pat.isPrefixOf (c :: tl) || listIsSub pat tl

/-- JS `s.includes(pat)`. -/
def strIncludes (s pat : String) : Bool := listIsSub pat.data s.data

/-! ### Store model -/

/-- A row of a per-partition message table (`created` omitted). -/
structure Row where
  id : Nat
  data : Payload
deriving DecidableEq, Repr

/-- A per-partition message table: autoincrement state plus rows.
`seq` is the last assigned rowid; the next insert gets `seq + 1`, so the
first rowid of a fresh table is 1. -/
structure PartTable where
  seq : Nat
  rows : List Row
deriving DecidableEq, Repr

def PartTable.empty : PartTable := ⟨0, []⟩

/-- Single-row insert; returns the new table and the statement's
`lastInsertRowid`. -/
def PartTable.insert (t : PartTable) (d : Payload) : PartTable × Nat :=
  (⟨t.seq + 1, t.rows ++ [⟨t.seq + 1, d⟩]⟩, t.seq + 1)

def PartTable.insertAll (t : PartTable) (ds : List Payload) : PartTable :=
  ds.foldl (fun t d => (t.insert d).1) t

/-- A row of the shared `klite_consumer_offsets` table (`updated_at` omitted). -/
structure OffsetRow where
  consumer_group : String
  topic : String
  partition : Nat
  commit_offset : Int
deriving DecidableEq, Repr

/-- The database: message tables keyed by table name, and the shared offsets
table (`none` while `klite_consumer_offsets` has not been created). -/
structure DB where
  tables : List (String × PartTable)
  offsets : Option (List OffsetRow)
deriving DecidableEq, Repr

def DB.getTable (db : DB) (name : String) : Option PartTable :=
  lookupKey db.tables name

def DB.setTable (db : DB) (name : String) (t : PartTable) : DB :=
  { db with tables := updateKey db.tables name t }

/-- `CREATE TABLE IF NOT EXISTS` for a message table. -/
def DB.createTableIfNotExists (db : DB) (name : String) : DB :=
  match db.getTable name with
  | some _ => db
  | none => { db with tables := db.tables ++ [(name, PartTable.empty)] }

/-- `db.batch` restricted to the INSERT statements the producer issues: all
statements run in one atomic transaction; the per-statement
`lastInsertRowid`s are returned in order.  On error nothing is persisted. -/
def DB.batchInsert (db : DB) (name : String) : List Payload → Except Err (DB × List Nat)
  | [] => .ok (db, [])
  | d :: tl =>
    match db.getTable name with
    | none => .error ⟨"no such table: " ++ name⟩
    | some t =>
      match (db.setTable name (t.insert d).1).batchInsert name tl with
      | .ok (db', ids) => .ok (db', (t.insert d).2 :: ids)
      | .error e => .error e

/-- The empty database of a fresh `:memory:` client. -/
def db0 : DB := ⟨[], none⟩

/-- A small populated database: partition (test, 0) holding three messages,
no offsets table yet.  Used for concrete witnesses. -/
def dbDemo : DB := ⟨[("klite_test_0", ⟨3, [⟨1, [1]⟩, ⟨2, [2]⟩, ⟨3, [3]⟩]⟩)], none⟩

/-! ### Producer (`src/klite/src/producer.js`, `createProducer`) -/

/-- Table name formation ``klite_${topic}_${partition}`` (producer.js:8). -/
def tableName (topic : String) (partition : Nat) : String :=
  "klite_" ++ topic ++ "_" ++ toString partition

/-- The SQL text `ensureTable` sends to the store (producer.js:11-17),
whitespace normalized.  The topic is interpolated verbatim: there is no
validation or identifier escaping anywhere in the producer. -/
def createTableSQL (topic : String) (partition : Nat) : String :=
  "CREATE TABLE IF NOT EXISTS \"" ++ tableName topic partition ++
    "\" ( id INTEGER PRIMARY KEY AUTOINCREMENT, data BLOB NOT NULL, created DATETIME DEFAULT CURRENT_TIMESTAMP )"

/-- The content of the first double-quoted region of an SQL text: what a
SQL lexer reads as the quoted identifier (SQLite ends the identifier at the
next quote character). -/
def firstQuotedIdent (s : String) : String :=
  ((((s.data.dropWhile (fun c => c ≠ '"'))).drop 1).takeWhile (fun c => c ≠ '"')).asString

/-- Correct SQLite identifier quoting doubles every embedded quote.
Modelled from the spec: "implementations must quote identifiers …
Topics containing quote characters are rejected" (spec §4.1); used only to
compare against the SQL the code actually emits. -/
def sqlQuoteIdent (s : String) : String :=
  "\"" ++ (s.data.foldr (fun c acc => if c = '"' then '"' :: '"' :: acc else c :: acc) []).asString ++ "\""

/-- One pending auto-batch: buffered payloads in call order; the i-th waiter
is identified with position i of `messages`. -/
structure Pending where
  messages : List Msg
deriving DecidableEq, Repr

/-- Producer-local state: `ensuredTables` set and the
``topic:partition`` → pending-batch map. -/
structure ProducerState where
  ensuredTables : List String
  pendingBatches : List (String × Pending)
deriving DecidableEq, Repr

/-- A fresh producer instance. -/
def producer0 : ProducerState := ⟨[], []⟩

/-- `ensureTable` (producer.js:7-19): idempotent lazy DDL, memoized in
`ensuredTables`. -/
def ensureTable (topic : String) (partition : Nat) (ps : ProducerState) (db : DB) :
    ProducerState × DB :=
  let tn := tableName topic partition
  if tn ∈ ps.ensuredTables then (ps, db)
  else ({ ps with ensuredTables := tn :: ps.ensuredTables }, db.createTableIfNotExists tn)

/-- The settlement of one flushed batch: `some (.ok offs)` resolves waiter i
with offset `offs[i]`; `some (.error e)` rejects every waiter with `e`;
`none` means no batch was flushed (nothing settled). -/
abbrev FlushOutcome := Option (Except Err (List Nat))

/-- `flushBatch` (producer.js:21-47): detach the pending batch, run the
atomic multi-insert, settle every waiter.  `partitionStr` is the second
argument as a string, matching the `${partition}` interpolation. -/
def flushBatch (topic partitionStr : String) (ps : ProducerState) (db : DB) :
    ProducerState × DB × FlushOutcome :=
  let key := topic ++ ":" ++ partitionStr
  match lookupKey ps.pendingBatches key with
  | none => (ps, db, none)
  | some pending =>
    if pending.messages.isEmpty then (ps, db, none)
    else
      let ps' := { ps with pendingBatches := eraseKey ps.pendingBatches key }
      let tn := "klite_" ++ topic ++ "_" ++ partitionStr
      match db.batchInsert tn (pending.messages.map encode) with
      | .ok (db', ids) =>
        match ids.head? with
        | some firstOffset =>
          (ps', db', some (.ok ((List.range pending.messages.length).map (fun i => firstOffset + i))))
        | none => (ps', db', some (.error ⟨"TypeError: results[0] is undefined"⟩))
      | .error e => (ps', db, some (.error e))

/-- `send` (producer.js:49-76): ensure the table, append the payload and its
waiter to the pending batch (creating it if absent).  The timer reset is
implicit; the eventual timer fire is an explicit later `flushBatch` call. -/
def send (topic : String) (partition : Nat) (d : Msg) (ps : ProducerState) (db : DB) :
    ProducerState × DB :=
  let r := ensureTable topic partition ps db
  let key := topic ++ ":" ++ toString partition
  match lookupKey r.1.pendingBatches key with
  | none => ({ r.1 with pendingBatches := r.1.pendingBatches ++ [(key, ⟨[d]⟩)] }, r.2)
  | some pending =>
    ({ r.1 with pendingBatches := updateKey r.1.pendingBatches key ⟨pending.messages ++ [d]⟩ }, r.2)

/-- A sequence of `send` calls in program order. -/
def sendMany (topic : String) (partition : Nat) (msgs : List Msg)
    (ps : ProducerState) (db : DB) : ProducerState × DB :=
  msgs.foldl (fun r d => send topic partition d r.1 r.2) (ps, db)

/-- `sendBatch` (producer.js:78-96): bypass auto-batching, run the
multi-insert immediately, return `{firstOffset, count}`.
`results[0]` on an empty result list is the JS undefined-access error. -/
def sendBatch (topic : String) (partition : Nat) (msgs : List Msg)
    (ps : ProducerState) (db : DB) : ProducerState × DB × Except Err (Nat × Nat) :=
  let r := ensureTable topic partition ps db
  let tn := tableName topic partition
  match r.2.batchInsert tn (msgs.map encode) with
  | .ok (db', ids) =>
    match ids.head? with
    | some firstOffset => (r.1, db', .ok (firstOffset, msgs.length))
    | none => (r.1, db', .error ⟨"TypeError: results[0] is undefined"⟩)
  | .error e => (r.1, r.2, .error e)

/-- One iteration of the loop inside `flush` (producer.js:99-106):
`const [topic, partition] = key.split(":")` keeps only the first two
segments, then `flushBatch(topic, partition)` is invoked. -/
def flushStep (acc : ProducerState × DB × List FlushOutcome) (key : String) :
    ProducerState × DB × List FlushOutcome :=
  let parts := (splitOnColon key.data).map List.asString
  let topic := (parts.get? 0).getD "undefined"
  let partitionStr := (parts.get? 1).getD "undefined"
  let r := flushBatch topic partitionStr acc.1 acc.2.1
  (r.1, r.2.1, acc.2.2 ++ [r.2.2])

/-- `flush` (producer.js:99-106): iterate over the pending-batch keys and
flush each reconstructed (topic, partition). -/
def flush (ps : ProducerState) (db : DB) : ProducerState × DB × List FlushOutcome :=
  (ps.pendingBatches.map Prod.fst).foldl flushStep (ps, db, [])

/-! ### Consumer (`src/klite/src/producer.js`, consumer half: `createConsumer`) -/

/-- Consumer-local state: the group name (immutable), the offset-table DDL
flag, and the set of ``group:topic:partition`` keys known to have a row. -/
structure ConsumerState where
  group : String
  offsetTableEnsured : Bool
  committedOffsets : List String
deriving DecidableEq, Repr

/-- A fresh consumer instance for a group. -/
def consumer0 (g : String) : ConsumerState := ⟨g, false, []⟩

/-- Cache key ``${group}:${topic}:${partition}``. -/
def offsetKey (g topic : String) (p : Nat) : String :=
  g ++ ":" ++ topic ++ ":" ++ toString p

/-- The WHERE clause `consumer_group = ? AND topic = ? AND partition = ?`. -/
def offsetRowMatches (r : OffsetRow) (g topic : String) (p : Nat) : Bool :=
  r.consumer_group == g && r.topic == topic && r.partition == p

/-- First offset row for the key (the SELECT's result row, if any). -/
def findOffsetRow (rows : List OffsetRow) (g topic : String) (p : Nat) : Option OffsetRow :=
  rows.find? (fun r => offsetRowMatches r g topic p)

/-- Number of rows for the key; the primary key makes this at most 1. -/
def countKey (db : DB) (g topic : String) (p : Nat) : Nat :=
  ((db.offsets.getD []).filter (fun r => offsetRowMatches r g topic p)).length

/-- Effect of `CREATE TABLE IF NOT EXISTS klite_consumer_offsets` on the db. -/
def ensureOffsetTableDB (db : DB) : DB :=
  { db with offsets := some (db.offsets.getD []) }

/-- `ensureOffsetTable` (consumer, lines 116-130): idempotent lazy DDL. -/
def ensureOffsetTable (cs : ConsumerState) (db : DB) : ConsumerState × DB :=
  if cs.offsetTableEnsured then (cs, db)
  else ({ cs with offsetTableEnsured := true }, ensureOffsetTableDB db)

/-- `INSERT INTO klite_consumer_offsets …`: rejected by the composite
primary key when a row for the key already exists. -/
def DB.insertOffsetRow (db : DB) (r : OffsetRow) : Except Err DB :=
  match db.offsets with
  | none => .error ⟨"no such table: klite_consumer_offsets"⟩
  | some rows =>
    match findOffsetRow rows r.consumer_group r.topic r.partition with
    | some _ => .error ⟨"UNIQUE constraint failed: klite_consumer_offsets"⟩
    | none => .ok { db with offsets := some (rows ++ [r]) }

/-- Row-level effect of the offsets UPDATE statement. -/
def updateRowsFn (rows : List OffsetRow) (g topic : String) (p : Nat) (off : Int) :
    List OffsetRow :=
  rows.map (fun r => if offsetRowMatches r g topic p then { r with commit_offset := off } else r)

/-- `UPDATE klite_consumer_offsets SET commit_offset = ? WHERE …`; updating
zero rows is not an error, a missing table is. -/
def DB.updateOffsetRow (db : DB) (g topic : String) (p : Nat) (off : Int) : Except Err DB :=
  match db.offsets with
  | none => .error ⟨"no such table: klite_consumer_offsets"⟩
  | some rows => .ok { db with offsets := some (updateRowsFn rows g topic p off) }

/-- The persisted commit point a SELECT would report: the stored
`commit_offset`, or -1 when the row (or the whole table) is absent. -/
def offsetView (db : DB) (g topic : String) (p : Nat) : Int :=
  match findOffsetRow (db.offsets.getD []) g topic p with
  | some r => r.commit_offset
  | none => -1

/-- `getLastOffset` (consumer, lines 132-148): ensure the table, SELECT the
row; on a hit memoize the key and return `commit_offset`, else return -1. -/
def getLastOffset (cs : ConsumerState) (db : DB) (topic : String) (p : Nat) :
    ConsumerState × DB × Int :=
  let r := ensureOffsetTable cs db
  let key := offsetKey r.1.group topic p
  match findOffsetRow (r.2.offsets.getD []) r.1.group topic p with
  | some row => ({ r.1 with committedOffsets := key :: r.1.committedOffsets }, r.2, row.commit_offset)
  | none => (r.1, r.2, -1)

/-- JS `options.maxMessages || 100`: any falsy value (absent field, null,
undefined, 0) selects the default. -/
def jsOrNum (v : Option Int) (d : Int) : Int :=
  match v with
  | none => d
  | some n => if n = 0 then d else n

/-- SQL `LIMIT`: a negative limit means no limit (SQLite semantics). -/
def limTake (limit : Int) (l : List Row) : List Row :=
  if limit < 0 then l else l.take limit.toNat

/-- Insertion into an id-sorted list (helper for `ORDER BY id ASC`). -/
def insertById (r : Row) : List Row → List Row
  | [] => [r]
  | x :: tl => if r.id ≤ x.id then r :: x :: tl else x :: insertById r tl

/-- `ORDER BY id ASC`. -/
def sortById (l : List Row) : List Row := l.foldr insertById []

/-- The fetch SELECT: `WHERE id > ? ORDER BY id ASC LIMIT ?`, failing with
the recognizable message when the partition table does not exist. -/
def selectRows (db : DB) (name : String) (lastOffset : Int) (limit : Int) :
    Except Err (List Row) :=
  match db.getTable name with
  | none => .error ⟨"no such table: " ++ name⟩
  | some t => .ok (limTake limit ((sortById t.rows).filter (fun r => lastOffset < (r.id : Int))))

/-- A fetched message `{offset, data}` (`created` omitted). -/
structure FetchedMsg where
  offset : Nat
  data : Msg
deriving DecidableEq, Repr

/-- The catch block of `fetch` (consumer, lines 170-176): a "no such table"
error becomes an empty result, every other error propagates. -/
def fetchCatch (e : Err) : Except Err (List FetchedMsg) :=
  if strIncludes e.message "no such table" then .ok [] else .error e

/-- `fetch` (consumer, lines 150-177). -/
def consumerFetch (cs : ConsumerState) (db : DB) (topic : String) (p : Nat)
    (maxMessages : Option Int) : ConsumerState × DB × Except Err (List FetchedMsg) :=
  let limit := jsOrNum maxMessages 100
  let tn := tableName topic p
  let r := getLastOffset cs db topic p
  match selectRows r.2.1 tn r.2.2 limit with
  | .ok rows => (r.1, r.2.1, .ok (rows.map (fun row => ⟨row.id, decode row.data⟩)))
  | .error e => (r.1, r.2.1, fetchCatch e)

/-- `commit` (consumer, lines 179-212): UPDATE when the key is cached,
otherwise INSERT with an unconditional catch falling back to UPDATE. -/
def commit (cs : ConsumerState) (db : DB) (topic : String) (p : Nat) (off : Int) :
    Except Err (ConsumerState × DB) :=
  let r := ensureOffsetTable cs db
  let key := offsetKey r.1.group topic p
  if key ∈ r.1.committedOffsets then
    match r.2.updateOffsetRow r.1.group topic p off with
    | .ok db' => .ok (r.1, db')
    | .error e => .error e
  else
    match r.2.insertOffsetRow ⟨r.1.group, topic, p, off⟩ with
    | .ok db' => .ok ({ r.1 with committedOffsets := key :: r.1.committedOffsets }, db')
    | .error _ =>
      match r.2.updateOffsetRow r.1.group topic p off with
      | .ok db' => .ok ({ r.1 with committedOffsets := key :: r.1.committedOffsets }, db')
      | .error e => .error e

/-! ### Dispatcher worker (`src/klite/src/worker.js`) -/

/-- Numeric value of a decimal digit string (JS `parseInt(value, 10)`). -/
def digitsVal (l : List Char) : Nat :=
  l.foldl (fun a c => a * 10 + (c.toNat - 48)) 0

/-- `parseInterval` (worker.js:3-16): match ``^(\d+)(ms|s|m)$`` and scale by
the unit.  The digit run of any regex match is exactly the maximal leading
digit run (units start with a non-digit), so the match is computed by
splitting there. -/
def parseInterval (s : String) : Except Err Nat :=
  let digits := s.data.takeWhile Char.isDigit
  let rest := s.data.dropWhile Char.isDigit
  if digits.isEmpty then .error ⟨"Invalid interval format: " ++ s⟩
  else if rest = ['m', 's'] then .ok (digitsVal digits)
  else if rest = ['s'] then .ok (digitsVal digits * 1000)
  else if rest = ['m'] then .ok (digitsVal digits * 60 * 1000)
  else .error ⟨"Invalid interval format: " ++ s⟩

/-- Outcome of the HTTP POST to the sink for one cycle: a response with a
status code, or a thrown transport error. -/
inductive HttpResult where
  | resp (status : Nat)
  | thrown (msg : String)
deriving DecidableEq, Repr

/-- The Fetch API `response.ok` flag: status in the 2xx range. -/
def respOk (status : Nat) : Bool := 200 ≤ status && status ≤ 299

/-- Observable outcome of one `processPartition` cycle. -/
structure ProcOutcome where
  httpCalled : Bool
  commitCalled : Bool
  cs : ConsumerState
  db : DB
deriving Repr

/-- `processPartition` (worker.js:18-51): fetch up to `batchSize`; on empty
return immediately; otherwise POST and, only on `response.ok`, commit the
last offset.  Non-2xx and thrown errors are logged and swallowed; a commit
failure is also caught by the surrounding try.  A fetch failure propagates
(it is outside the try). -/
def processPartition (cs : ConsumerState) (db : DB) (topic : String) (p : Nat)
    (batchSize : Int) (http : HttpResult) : Except Err ProcOutcome :=
  let r := consumerFetch cs db topic p (some batchSize)
  match r.2.2 with
  | .error e => .error e
  | .ok messages =>
    if messages.isEmpty then .ok ⟨false, false, r.1, r.2.1⟩
    else
      match http with
      | .thrown _ => .ok ⟨true, false, r.1, r.2.1⟩
      | .resp st =>
        if respOk st then
          let lastMsg := messages.getLastD ⟨0, 0⟩
          match commit r.1 r.2.1 topic p (lastMsg.offset : Int) with
          | .ok (cs', db') => .ok ⟨true, true, cs', db'⟩
          | .error _ => .ok ⟨true, true, r.1, r.2.1⟩
        else .ok ⟨true, false, r.1, r.2.1⟩

/-! ### Two racing first commits (claim C4)

Each `commit` of a fresh consumer is a sequence of atomic store operations
separated by `await` suspension points: the ensure-table DDL, the INSERT
attempt (whose failure is caught), and on failure the fallback UPDATE.  A
thread is a program counter over these segments; a schedule interleaves the
two threads arbitrarily. -/

/-- Program counter of one in-flight first `commit`.  `failed` marks an
uncaught exception (the fallback UPDATE throwing). -/
inductive Phase where
  | start | ready | fallback | done | failed
deriving DecidableEq, Repr

/-- One atomic step of a fresh consumer's `commit` for `(g, topic, p, off)`:
the cache is empty, so the UPDATE-direct branch is never taken. -/
def commitStepOn (g topic : String) (p : Nat) (off : Int) (ph : Phase) (db : DB) :
    Phase × DB :=
  match ph with
  | .start => (.ready, ensureOffsetTableDB db)
  | .ready =>
    match db.insertOffsetRow ⟨g, topic, p, off⟩ with
    | .ok db' => (.done, db')
    | .error _ => (.fallback, db)
  | .fallback =>
    match db.updateOffsetRow g topic p off with
    | .ok db' => (.done, db')
    | .error _ => (.failed, db)
  | .done => (.done, db)
  | .failed => (.failed, db)

/-- The interleaved state of two racing commits over the shared store. -/
structure RaceState where
  t1 : Phase
  t2 : Phase
  db : DB
deriving Repr

/-- Run one scheduled step (`true` advances thread 1). -/
def raceStep (g topic : String) (p : Nat) (off1 off2 : Int) (s : RaceState)
    (choose1 : Bool) : RaceState :=
  if choose1 then
    let r := commitStepOn g topic p off1 s.t1 s.db
    ⟨r.1, s.t2, r.2⟩
  else
    let r := commitStepOn g topic p off2 s.t2 s.db
    ⟨s.t1, r.1, r.2⟩

/-- Run a whole schedule. -/
def raceRun (g topic : String) (p : Nat) (off1 off2 : Int) (sched : List Bool)
    (s : RaceState) : RaceState :=
  sched.foldl (raceStep g topic p off1 off2) s

/-! ### Helper lemmas -/

theorem lookupKey_append_right {α : Type} (l : List (String × α)) (k : String) (v : α)
    (h : lookupKey l k = none) : lookupKey (l ++ [(k, v)]) k = some v := by
  induction l with
  | nil => simp [lookupKey]
  | cons hd tl ih =>
    obtain ⟨k', v'⟩ := hd
    by_cases hk : k' = k
    · simp [lookupKey, hk] at h
    · simp only [lookupKey, List.cons_append, if_neg hk] at h ⊢
      exact ih h

theorem lookupKey_updateKey {α : Type} (l : List (String × α)) (k : String) (w : α)
    (v₀ : α) (h : lookupKey l k = some v₀) : lookupKey (updateKey l k w) k = some w := by
  induction l with
  | nil => simp [lookupKey] at h
  | cons hd tl ih =>
    obtain ⟨k', v'⟩ := hd
    by_cases hk : k' = k
    · simp [lookupKey, updateKey, hk]
    · simp only [lookupKey, updateKey, if_neg hk] at h ⊢
      exact ih h

theorem mem_takeWhile_imp {α : Type} (p : α → Bool) (l : List α) (a : α)
    (h : a ∈ l.takeWhile p) : p a = true := by
  induction l with
  | nil => simp [List.takeWhile] at h
  | cons hd tl ih =>
    by_cases hp : p hd
    · simp only [List.takeWhile, hp] at h
      rcases List.mem_cons.mp h with h | h
      · exact h ▸ hp
      · exact ih h
    · have hpf : p hd = false := by simpa using hp
      simp [List.takeWhile, hpf] at h

theorem takeWhile_append_of_all {α : Type} (p : α → Bool) (l1 l2 : List α)
    (h : ∀ a ∈ l1, p a = true) : (l1 ++ l2).takeWhile p = l1 ++ l2.takeWhile p := by
  induction l1 with
  | nil => simp
  | cons hd tl ih =>
    have hp : p hd = true := h hd (by simp)
    simp only [List.cons_append, List.takeWhile, hp]
    simpa using ih (fun a ha => h a (by simp [ha]))

theorem dropWhile_append_of_all {α : Type} (p : α → Bool) (l1 l2 : List α)
    (h : ∀ a ∈ l1, p a = true) : (l1 ++ l2).dropWhile p = l2.dropWhile p := by
  induction l1 with
  | nil => simp
  | cons hd tl ih =>
    have hp : p hd = true := h hd (by simp)
    simp only [List.cons_append, List.dropWhile, hp]
    exact ih (fun a ha => h a (by simp [ha]))

theorem takeWhile_append_of_far {α : Type} (p : α → Bool) (l1 l2 : List α)
    (h : ∃ a ∈ l1, p a = false) : (l1 ++ l2).takeWhile p = l1.takeWhile p := by
  induction l1 with
  | nil => simp at h
  | cons hd tl ih =>
    by_cases hp : p hd
    · simp only [List.cons_append, List.takeWhile, List.append_eq, hp]
      obtain ⟨a, ha, hpa⟩ := h
      rcases List.mem_cons.mp ha with rfl | ha
      · rw [hp] at hpa; cases hpa
      · rw [ih ⟨a, ha, hpa⟩]
    · have : p hd = false := by simpa using hp
      simp [List.takeWhile, this]

theorem takeWhile_ne_self {α : Type} (p : α → Bool) (l : List α)
    (h : ∃ a ∈ l, p a = false) : l.takeWhile p ≠ l := by
  induction l with
  | nil => simp at h
  | cons hd tl ih =>
    by_cases hp : p hd
    · simp only [List.takeWhile, hp]
      obtain ⟨a, ha, hpa⟩ := h
      rcases List.mem_cons.mp ha with rfl | ha
      · rw [hp] at hpa; cases hpa
      · intro hc
        exact ih ⟨a, ha, hpa⟩ (List.cons.injEq .. ▸ hc).2
    · have hpf : p hd = false := by simpa using hp
      simp [List.takeWhile, hpf]

theorem mem_insertById (r x : Row) (l : List Row) :
    x ∈ insertById r l ↔ x = r ∨ x ∈ l := by
  induction l with
  | nil => simp [insertById]
  | cons hd tl ih =>
    by_cases hle : r.id ≤ hd.id
    · simp [insertById, hle]
    · simp only [insertById, if_neg hle, List.mem_cons, ih]
      tauto

theorem mem_sortById (x : Row) (l : List Row) : x ∈ sortById l ↔ x ∈ l := by
  induction l with
  | nil => simp [sortById]
  | cons hd tl ih =>
    simp only [sortById, List.foldr_cons] at ih ⊢
    rw [mem_insertById, ih, List.mem_cons]

theorem getTable_setTable (db : DB) (name : String) (t t₀ : PartTable)
    (h : db.getTable name = some t₀) : (db.setTable name t).getTable name = some t := by
  exact lookupKey_updateKey db.tables name t t₀ h

theorem insertAll_spec (ds : List Payload) : ∀ t : PartTable,
    (t.insertAll ds).seq = t.seq + ds.length ∧
    (t.insertAll ds).rows = t.rows ++ List.zipWith Row.mk (List.range' (t.seq + 1) ds.length) ds := by
  induction ds with
  | nil => intro t; simp [PartTable.insertAll]
  | cons d tl ih =>
    intro t
    have h := ih ((t.insert d).1)
    have hseq : ((t.insert d).1).seq = t.seq + 1 := rfl
    have hrows : ((t.insert d).1).rows = t.rows ++ [⟨t.seq + 1, d⟩] := rfl
    constructor
    · show (PartTable.insertAll ((t.insert d).1) tl).seq = _
      rw [h.1, hseq]
      simp only [List.length_cons]
      omega
    · show (PartTable.insertAll ((t.insert d).1) tl).rows = _
      rw [h.2, hrows, hseq]
      simp [List.range'_succ, List.append_assoc]

theorem batchInsert_ok (name : String) (ds : List Payload) : ∀ (db : DB) (t : PartTable),
    db.getTable name = some t →
    ∃ db', db.batchInsert name ds = .ok (db', List.range' (t.seq + 1) ds.length) ∧
      db'.getTable name = some (t.insertAll ds) ∧ db'.offsets = db.offsets ∧
      db'.tables.map Prod.fst = db.tables.map Prod.fst := by
  induction ds with
  | nil =>
    intro db t h
    exact ⟨db, by simp [DB.batchInsert], by simpa [PartTable.insertAll] using h, rfl, rfl⟩
  | cons d tl ih =>
    intro db t h
    have h1 : (db.setTable name (t.insert d).1).getTable name = some (t.insert d).1 :=
      getTable_setTable db name _ t h
    obtain ⟨db', hrun, hget, hoff, hnames⟩ := ih (db.setTable name (t.insert d).1) (t.insert d).1 h1
    refine ⟨db', ?_, ?_, ?_, ?_⟩
    · simp only [DB.batchInsert, h, hrun]
      have : (t.insert d).2 = t.seq + 1 := rfl
      rw [this]
      have hseq : ((t.insert d).1).seq = t.seq + 1 := rfl
      rw [hseq] at hrun ⊢
      simp [List.range'_succ]
    · simpa [PartTable.insertAll] using hget
    · exact hoff
    · rw [hnames]
      show (updateKey db.tables name _).map Prod.fst = _
      clear h hnames hget hoff hrun h1
      induction db.tables with
      | nil => rfl
      | cons hd tl2 ih2 =>
        obtain ⟨k', v'⟩ := hd
        by_cases hk : k' = name
        · simp [updateKey, hk, ih2]
        · simp [updateKey, hk, ih2]

theorem createTableSQL_data (topic : String) (p : Nat) :
    (createTableSQL topic p).data =
      "CREATE TABLE IF NOT EXISTS ".data ++
        '"' :: ((tableName topic p).data ++
          '"' :: " ( id INTEGER PRIMARY KEY AUTOINCREMENT, data BLOB NOT NULL, created DATETIME DEFAULT CURRENT_TIMESTAMP )".data) := by
  have h1 : ("CREATE TABLE IF NOT EXISTS \"" : String).data =
      "CREATE TABLE IF NOT EXISTS ".data ++ ['"'] := by decide
  have h2 : ("\" ( id INTEGER PRIMARY KEY AUTOINCREMENT, data BLOB NOT NULL, created DATETIME DEFAULT CURRENT_TIMESTAMP )" : String).data =
      '"' :: " ( id INTEGER PRIMARY KEY AUTOINCREMENT, data BLOB NOT NULL, created DATETIME DEFAULT CURRENT_TIMESTAMP )".data := by decide
  simp only [createTableSQL, String.data_append, h1, h2]
  simp [List.append_assoc]

theorem quote_mem_tableName (topic : String) (p : Nat) (hq : '"' ∈ topic.data) :
    '"' ∈ (tableName topic p).data := by
  simp only [tableName, String.data_append]
  simp [hq]

theorem listIsSub_nil_pat (l : List Char) : listIsSub [] l = true := by
  induction l with
  | nil => rfl
  | cons c tl ih => simp [listIsSub, List.isPrefixOf, ih]

theorem isPrefixOf_append_self (p t : List Char) : p.isPrefixOf (p ++ t) = true := by
  induction p with
  | nil => simp [List.isPrefixOf]
  | cons a as ih => simp [List.isPrefixOf, ih]

theorem listIsSub_append_right (p t : List Char) : listIsSub p (p ++ t) = true := by
  cases p with
  | nil => exact listIsSub_nil_pat t
  | cons a as => simp [listIsSub, isPrefixOf_append_self]

theorem strIncludes_self_append (pat rest : String) : strIncludes (pat ++ rest) pat = true := by
  unfold strIncludes
  rw [String.data_append]
  exact listIsSub_append_right pat.data rest.data

theorem noSuchTable_decomp (tn : String) :
    ("no such table: " ++ tn : String) = "no such table" ++ (": " ++ tn) := by
  apply String.ext
  have h : ("no such table: " : String).data = "no such table".data ++ ": ".data := by decide
  simp [String.data_append, h]

theorem ensureOffsetTable_spec (cs : ConsumerState) (db : DB) :
    ((ensureOffsetTable cs db).1).group = cs.group ∧
    ((ensureOffsetTable cs db).1).committedOffsets = cs.committedOffsets ∧
    ((ensureOffsetTable cs db).2).tables = db.tables ∧
    ((ensureOffsetTable cs db).2).offsets.getD [] = db.offsets.getD [] := by
  unfold ensureOffsetTable ensureOffsetTableDB
  by_cases h : cs.offsetTableEnsured <;> simp [h]

theorem getLastOffset_value (cs : ConsumerState) (db : DB) (topic : String) (p : Nat) :
    (getLastOffset cs db topic p).2.2 = offsetView db cs.group topic p := by
  obtain ⟨hg, _, _, ho⟩ := ensureOffsetTable_spec cs db
  simp only [getLastOffset, offsetView, hg, ho]
  cases hf : findOffsetRow (db.offsets.getD []) cs.group topic p <;> simp [hf]

theorem getLastOffset_db (cs : ConsumerState) (db : DB) (topic : String) (p : Nat) :
    (getLastOffset cs db topic p).2.1 = (ensureOffsetTable cs db).2 := by
  simp only [getLastOffset]
  cases hf : findOffsetRow (((ensureOffsetTable cs db).2).offsets.getD [])
      ((ensureOffsetTable cs db).1).group topic p <;> simp [hf]

theorem consumerFetch_db (cs : ConsumerState) (db : DB) (topic : String) (p : Nat)
    (opts : Option Int) : (consumerFetch cs db topic p opts).2.1 = (ensureOffsetTable cs db).2 := by
  simp only [consumerFetch, getLastOffset_db]
  cases hs : selectRows ((ensureOffsetTable cs db).2) (tableName topic p)
      (getLastOffset cs db topic p).2.2 (jsOrNum opts 100) <;>
    simp [hs, getLastOffset_db]

theorem consumerFetch_offsetView (cs : ConsumerState) (db : DB) (topic : String) (p : Nat)
    (opts : Option Int) (g t' : String) (p' : Nat) :
    offsetView ((consumerFetch cs db topic p opts).2.1) g t' p' = offsetView db g t' p' := by
  rw [consumerFetch_db]
  unfold offsetView
  have ho := (ensureOffsetTable_spec cs db).2.2.2
  rw [ho]

theorem offsetRowMatches_setOffset (r : OffsetRow) (g topic : String) (p : Nat) (k : Int) :
    offsetRowMatches { r with commit_offset := k } g topic p = offsetRowMatches r g topic p := rfl

theorem findOffsetRow_update (rows : List OffsetRow) (g topic : String) (p : Nat) (k : Int) :
    ∀ r, findOffsetRow rows g topic p = some r →
      findOffsetRow (updateRowsFn rows g topic p k) g topic p =
        some { r with commit_offset := k } := by
  induction rows with
  | nil => intro r h; simp [findOffsetRow] at h
  | cons hd tl ih =>
    intro r h
    have hcons : updateRowsFn (hd :: tl) g topic p k =
        (if offsetRowMatches hd g topic p = true then { hd with commit_offset := k } else hd) ::
          updateRowsFn tl g topic p k := rfl
    by_cases hm : offsetRowMatches hd g topic p
    · rw [findOffsetRow,
        @List.find?_cons_of_pos _ (fun r => offsetRowMatches r g topic p) hd tl hm] at h
      injection h with h
      subst h
      rw [findOffsetRow, hcons, if_pos hm]
      exact @List.find?_cons_of_pos _ (fun r => offsetRowMatches r g topic p) _
        (updateRowsFn tl g topic p k) hm
    · rw [findOffsetRow,
        @List.find?_cons_of_neg _ (fun r => offsetRowMatches r g topic p) hd tl hm] at h
      rw [findOffsetRow, hcons, if_neg hm]
      rw [@List.find?_cons_of_neg _ (fun r => offsetRowMatches r g topic p) hd
        (updateRowsFn tl g topic p k) hm]
      exact ih r h

theorem findOffsetRow_append_new (rows : List OffsetRow) (g topic : String) (p : Nat)
    (k : Int) (h : findOffsetRow rows g topic p = none) :
    findOffsetRow (rows ++ [⟨g, topic, p, k⟩]) g topic p = some ⟨g, topic, p, k⟩ := by
  unfold findOffsetRow at h ⊢
  rw [List.find?_append, h]
  simp [List.find?, offsetRowMatches]

theorem ensureOffsetTable_isSome (cs : ConsumerState) (db : DB)
    (ht : cs.offsetTableEnsured = true → db.offsets.isSome) :
    ((ensureOffsetTable cs db).2).offsets.isSome := by
  unfold ensureOffsetTable ensureOffsetTableDB
  by_cases hf : cs.offsetTableEnsured <;> simp [hf, ht]

theorem commit_spec (cs : ConsumerState) (db : DB) (topic : String) (p : Nat) (k : Int)
    (hc : offsetKey cs.group topic p ∈ cs.committedOffsets →
          (findOffsetRow (db.offsets.getD []) cs.group topic p).isSome)
    (ht : cs.offsetTableEnsured = true → db.offsets.isSome) :
    ∃ cs' db', commit cs db topic p k = .ok (cs', db') ∧
      cs'.group = cs.group ∧ db'.tables = db.tables ∧
      offsetView db' cs.group topic p = k := by
  obtain ⟨hg, hco, htab, hgetD⟩ := ensureOffsetTable_spec cs db
  obtain ⟨rows0, hrows⟩ := Option.isSome_iff_exists.mp (ensureOffsetTable_isSome cs db ht)
  have hrows0 : rows0 = db.offsets.getD [] := by rw [← hgetD, hrows]; rfl
  by_cases hmem : offsetKey cs.group topic p ∈ ((ensureOffsetTable cs db).1).committedOffsets
  · obtain ⟨r0, hr0⟩ := Option.isSome_iff_exists.mp (hc (by rwa [hco] at hmem))
    refine ⟨(ensureOffsetTable cs db).1,
      { (ensureOffsetTable cs db).2 with
        offsets := some (updateRowsFn rows0 cs.group topic p k) }, ?_, hg, htab, ?_⟩
    · simp only [commit, hg, if_pos hmem, DB.updateOffsetRow, hrows]
    · unfold offsetView
      rw [Option.getD_some, findOffsetRow_update rows0 cs.group topic p k r0 (hrows0 ▸ hr0)]
  · cases hf : findOffsetRow rows0 cs.group topic p with
    | none =>
      refine ⟨{ (ensureOffsetTable cs db).1 with
          committedOffsets := offsetKey cs.group topic p ::
            ((ensureOffsetTable cs db).1).committedOffsets },
        { (ensureOffsetTable cs db).2 with
          offsets := some (rows0 ++ [⟨cs.group, topic, p, k⟩]) }, ?_, hg, htab, ?_⟩
      · simp only [commit, hg, if_neg hmem, DB.insertOffsetRow, hrows, hf]
      · unfold offsetView
        rw [Option.getD_some, findOffsetRow_append_new rows0 cs.group topic p k hf]
    | some r0 =>
      refine ⟨{ (ensureOffsetTable cs db).1 with
          committedOffsets := offsetKey cs.group topic p ::
            ((ensureOffsetTable cs db).1).committedOffsets },
        { (ensureOffsetTable cs db).2 with
          offsets := some (updateRowsFn rows0 cs.group topic p k) }, ?_, hg, htab, ?_⟩
      · simp only [commit, hg, if_neg hmem, DB.insertOffsetRow, DB.updateOffsetRow, hrows, hf]
      · unfold offsetView
        rw [Option.getD_some, findOffsetRow_update rows0 cs.group topic p k r0 hf]

theorem mem_limTake (limit : Int) (l : List Row) (r : Row) (h : r ∈ limTake limit l) :
    r ∈ l := by
  unfold limTake at h
  by_cases hl : limit < 0
  · simpa [hl] using h
  · rw [if_neg hl] at h
    exact List.take_subset _ _ h

theorem selectRows_ok (db : DB) (name : String) (lo : Int) (limit : Int)
    (rows : List Row) (h : selectRows db name lo limit = .ok rows) :
    ∃ t, db.getTable name = some t ∧
      rows = limTake limit ((sortById t.rows).filter (fun r => decide (lo < (r.id : Int)))) := by
  unfold selectRows at h
  cases hg : db.getTable name with
  | none => rw [hg] at h; exact Except.noConfusion h
  | some t =>
    rw [hg] at h
    injection h with h
    exact ⟨t, rfl, h.symm⟩

theorem consumerFetch_ok_mem (cs : ConsumerState) (db : DB) (topic : String) (p : Nat)
    (opts : Option Int) (msgs : List FetchedMsg)
    (h : (consumerFetch cs db topic p opts).2.2 = .ok msgs) :
    ∀ m ∈ msgs, offsetView db cs.group topic p < (m.offset : Int) := by
  simp only [consumerFetch] at h
  cases hs : selectRows ((getLastOffset cs db topic p).2.1) (tableName topic p)
      ((getLastOffset cs db topic p).2.2) (jsOrNum opts 100) with
  | ok rows =>
    rw [hs] at h
    simp only [Except.ok.injEq] at h
    obtain ⟨t, _, hrows⟩ := selectRows_ok _ _ _ _ _ hs
    intro m hm
    rw [← h] at hm
    obtain ⟨row, hrow, hmrow⟩ := List.mem_map.mp hm
    rw [hrows] at hrow
    have hfil := mem_limTake _ _ _ hrow
    have hpred := (List.mem_filter.mp hfil).2
    have hlt : (getLastOffset cs db topic p).2.2 < (row.id : Int) := of_decide_eq_true hpred
    rw [getLastOffset_value] at hlt
    rw [← hmrow]
    exact hlt
  | error e =>
    rw [hs] at h
    simp only [fetchCatch] at h
    by_cases hinc : strIncludes e.message "no such table"
    · rw [if_pos hinc] at h
      injection h with h
      intro m hm
      rw [← h] at hm
      exact absurd hm (List.not_mem_nil m)
    · rw [if_neg hinc] at h
      exact Except.noConfusion h

theorem mem_range'_one (n x : Nat) : x ∈ List.range' 1 n ↔ 1 ≤ x ∧ x ≤ n := by
  rw [List.mem_range']
  constructor
  · rintro ⟨i, hi, rfl⟩; omega
  · rintro ⟨h1, h2⟩; exact ⟨x - 1, by omega, by omega⟩

theorem ensureTable_spec (topic : String) (partition : Nat) (ps : ProducerState) (db : DB)
    (hens : tableName topic partition ∈ ps.ensuredTables →
      (db.getTable (tableName topic partition)).isSome) :
    tableName topic partition ∈ ((ensureTable topic partition ps db).1).ensuredTables ∧
    ((ensureTable topic partition ps db).1).pendingBatches = ps.pendingBatches ∧
    ((ensureTable topic partition ps db).2).getTable (tableName topic partition) =
      some ((db.getTable (tableName topic partition)).getD PartTable.empty) ∧
    ((ensureTable topic partition ps db).2).offsets = db.offsets := by
  by_cases hmem : tableName topic partition ∈ ps.ensuredTables
  · obtain ⟨t, ht⟩ := Option.isSome_iff_exists.mp (hens hmem)
    simp [ensureTable, hmem, ht]
  · have hET : ensureTable topic partition ps db =
        ({ ps with ensuredTables := tableName topic partition :: ps.ensuredTables },
          db.createTableIfNotExists (tableName topic partition)) := by
      simp [ensureTable, hmem]
    rw [hET]
    refine ⟨by simp, rfl, ?_, ?_⟩
    · unfold DB.createTableIfNotExists
      cases ht : db.getTable (tableName topic partition) with
      | some t => simp [ht]
      | none =>
        simp only [ht]
        show lookupKey (db.tables ++ [(tableName topic partition, PartTable.empty)]) _ = _
        rw [lookupKey_append_right db.tables _ _ ht]
        rfl
    · unfold DB.createTableIfNotExists
      cases ht : db.getTable (tableName topic partition) <;> simp [ht]

theorem send_fresh (topic : String) (partition : Nat) (d : Msg) (ps : ProducerState)
    (db : DB)
    (hens : tableName topic partition ∈ ps.ensuredTables →
      (db.getTable (tableName topic partition)).isSome)
    (hkey : lookupKey ps.pendingBatches (topic ++ ":" ++ toString partition) = none) :
    lookupKey ((send topic partition d ps db).1).pendingBatches
      (topic ++ ":" ++ toString partition) = some ⟨[d]⟩ ∧
    tableName topic partition ∈ ((send topic partition d ps db).1).ensuredTables ∧
    ((send topic partition d ps db).2).getTable (tableName topic partition) =
      some ((db.getTable (tableName topic partition)).getD PartTable.empty) ∧
    ((send topic partition d ps db).2).offsets = db.offsets := by
  obtain ⟨hmem, hpend, hget, hoff⟩ := ensureTable_spec topic partition ps db hens
  have hkey' : lookupKey ((ensureTable topic partition ps db).1).pendingBatches
      (topic ++ ":" ++ toString partition) = none := by rw [hpend]; exact hkey
  simp only [send, hkey']
  exact ⟨lookupKey_append_right _ _ _ hkey', hmem, hget, hoff⟩

theorem sendMany_loop (topic : String) (partition : Nat) (msgs : List Msg) :
    ∀ (ps : ProducerState) (db : DB) (acc : List Msg),
      lookupKey ps.pendingBatches (topic ++ ":" ++ toString partition) = some ⟨acc⟩ →
      tableName topic partition ∈ ps.ensuredTables →
      (db.getTable (tableName topic partition)).isSome →
      lookupKey ((sendMany topic partition msgs ps db).1).pendingBatches
        (topic ++ ":" ++ toString partition) = some ⟨acc ++ msgs⟩ ∧
      (sendMany topic partition msgs ps db).2 = db := by
  induction msgs with
  | nil =>
    intro ps db acc hk hm hs
    exact ⟨by simpa using hk, rfl⟩
  | cons d tl ih =>
    intro ps db acc hk hm hs
    have hens1 : ensureTable topic partition ps db = (ps, db) := by
      simp [ensureTable, hm]
    have hsend : send topic partition d ps db =
        ({ ps with pendingBatches := (updateKey ps.pendingBatches (topic ++ ":" ++ toString partition) ⟨acc ++ [d]⟩) }, db) := by
      simp only [send, hens1, hk]
    have hcons : sendMany topic partition (d :: tl) ps db =
        sendMany topic partition tl (send topic partition d ps db).1
          (send topic partition d ps db).2 := rfl
    rw [hcons, hsend]
    obtain ⟨h1, h2⟩ := ih
      { ps with pendingBatches := (updateKey ps.pendingBatches (topic ++ ":" ++ toString partition) ⟨acc ++ [d]⟩) }
      db (acc ++ [d]) (lookupKey_updateKey ps.pendingBatches _ _ _ hk) hm hs
    refine ⟨?_, h2⟩
    rw [h1]
    simp

theorem countKey_ensure (db : DB) (g topic : String) (p : Nat) :
    countKey (ensureOffsetTableDB db) g topic p = countKey db g topic p := by
  simp [countKey, ensureOffsetTableDB]

theorem filter_updateRowsFn (rows : List OffsetRow) (g topic : String) (p : Nat) (k : Int) :
    ((updateRowsFn rows g topic p k).filter (fun r => offsetRowMatches r g topic p)).length =
    (rows.filter (fun r => offsetRowMatches r g topic p)).length := by
  induction rows with
  | nil => rfl
  | cons hd tl ih =>
    have hcons : updateRowsFn (hd :: tl) g topic p k =
        (if offsetRowMatches hd g topic p = true then { hd with commit_offset := k } else hd) ::
          updateRowsFn tl g topic p k := rfl
    rw [hcons]
    by_cases hm : offsetRowMatches hd g topic p
    · rw [if_pos hm]
      have hm' : offsetRowMatches { hd with commit_offset := k } g topic p = true := hm
      simp [List.filter, hm, hm', ih]
    · have hmf : offsetRowMatches hd g topic p = false := by simpa using hm
      rw [if_neg (by simp [hmf])]
      simp [List.filter, hmf, ih]

theorem count_zero_iff_find_none (rows : List OffsetRow) (g topic : String) (p : Nat) :
    (rows.filter (fun r => offsetRowMatches r g topic p)).length = 0 ↔
    findOffsetRow rows g topic p = none := by
  rw [List.length_eq_zero, List.filter_eq_nil_iff]
  unfold findOffsetRow
  rw [List.find?_eq_none]

theorem filter_append_new (rows : List OffsetRow) (g topic : String) (p : Nat) (k : Int) :
    (((rows ++ [⟨g, topic, p, k⟩]) : List OffsetRow).filter
      (fun r => offsetRowMatches r g topic p)).length =
    (rows.filter (fun r => offsetRowMatches r g topic p)).length + 1 := by
  rw [List.filter_append]
  simp [List.filter, offsetRowMatches]

theorem commitStepOn_props (g topic : String) (p : Nat) (off : Int) (ph : Phase) (db : DB)
    (hfail : ph ≠ .failed)
    (hsome : ph ≠ .start → db.offsets.isSome)
    (hcnt : countKey db g topic p ≤ 1)
    (hph : (ph = .fallback ∨ ph = .done) → countKey db g topic p = 1) :
    (commitStepOn g topic p off ph db).1 ≠ .failed ∧
    ((commitStepOn g topic p off ph db).1 ≠ .start →
      ((commitStepOn g topic p off ph db).2).offsets.isSome) ∧
    countKey ((commitStepOn g topic p off ph db).2) g topic p ≤ 1 ∧
    (((commitStepOn g topic p off ph db).1 = .fallback ∨
        (commitStepOn g topic p off ph db).1 = .done) →
      countKey ((commitStepOn g topic p off ph db).2) g topic p = 1) ∧
    countKey db g topic p ≤ countKey ((commitStepOn g topic p off ph db).2) g topic p ∧
    (db.offsets.isSome → ((commitStepOn g topic p off ph db).2).offsets.isSome) := by
  cases ph with
  | start =>
    have hstep : commitStepOn g topic p off Phase.start db =
        (.ready, ensureOffsetTableDB db) := rfl
    have hcE : countKey (ensureOffsetTableDB db) g topic p = countKey db g topic p :=
      countKey_ensure db g topic p
    rw [hstep]
    refine ⟨by simp, fun _ => by simp [ensureOffsetTableDB],
      show countKey (ensureOffsetTableDB db) g topic p ≤ 1 by omega, ?_,
      show countKey db g topic p ≤ countKey (ensureOffsetTableDB db) g topic p by omega,
      fun _ => by simp [ensureOffsetTableDB]⟩
    rintro (h | h) <;> exact Phase.noConfusion h
  | ready =>
    obtain ⟨rows, hrows⟩ := Option.isSome_iff_exists.mp (hsome (by simp))
    have hcount : countKey db g topic p =
        (rows.filter (fun r => offsetRowMatches r g topic p)).length := by
      simp [countKey, hrows]
    cases hf : findOffsetRow rows g topic p with
    | none =>
      have hstep : commitStepOn g topic p off Phase.ready db =
          (.done, { db with offsets := some (rows ++ [⟨g, topic, p, off⟩]) }) := by
        simp [commitStepOn, DB.insertOffsetRow, hrows, hf]
      have hzero : (rows.filter (fun r => offsetRowMatches r g topic p)).length = 0 :=
        (count_zero_iff_find_none rows g topic p).mpr hf
      have hnew : countKey { db with offsets := some (rows ++ [⟨g, topic, p, off⟩]) }
          g topic p = 1 := by
        simp only [countKey, Option.getD_some]
        rw [filter_append_new, hzero]
      have h0 : countKey db g topic p = 0 := by rw [hcount]; exact hzero
      rw [hstep]
      exact ⟨by simp, by simp, le_of_eq hnew, fun _ => hnew, h0 ▸ Nat.zero_le _, by simp⟩
    | some r0 =>
      have hstep : commitStepOn g topic p off Phase.ready db = (.fallback, db) := by
        simp [commitStepOn, DB.insertOffsetRow, hrows, hf]
      have hone : countKey db g topic p = 1 := by
        have : (rows.filter (fun r => offsetRowMatches r g topic p)).length ≠ 0 := by
          intro hz
          rw [(count_zero_iff_find_none rows g topic p).mp hz] at hf
          exact Option.noConfusion hf
        omega
      rw [hstep]
      exact ⟨by simp, fun _ => by simp [hrows], hcnt, fun _ => hone, le_refl _,
        fun h => h⟩
  | fallback =>
    obtain ⟨rows, hrows⟩ := Option.isSome_iff_exists.mp (hsome (by simp))
    have hstep : commitStepOn g topic p off Phase.fallback db =
        (.done, { db with offsets := some (updateRowsFn rows g topic p off) }) := by
      simp [commitStepOn, DB.updateOffsetRow, hrows]
    have hone : countKey db g topic p = 1 := hph (Or.inl rfl)
    have hupd : countKey { db with offsets := some (updateRowsFn rows g topic p off) }
        g topic p = countKey db g topic p := by
      simp only [countKey, Option.getD_some, hrows]
      exact filter_updateRowsFn rows g topic p off
    rw [hstep]
    exact ⟨by simp, by simp, le_of_eq (hupd.trans hone), fun _ => hupd.trans hone,
      le_of_eq (hupd.symm.trans (by rfl)), by simp⟩
  | done =>
    exact ⟨by simp [commitStepOn], fun _ => hsome (by simp), hcnt,
      fun _ => hph (Or.inr rfl), le_refl _, fun h => h⟩
  | failed => exact absurd rfl hfail

theorem raceStep_inv (g topic : String) (p : Nat) (off1 off2 : Int) (s : RaceState)
    (b : Bool)
    (h1f : s.t1 ≠ .failed) (h2f : s.t2 ≠ .failed)
    (h1s : s.t1 ≠ .start → s.db.offsets.isSome)
    (h2s : s.t2 ≠ .start → s.db.offsets.isSome)
    (hc : countKey s.db g topic p ≤ 1)
    (hp1 : (s.t1 = .fallback ∨ s.t1 = .done) → countKey s.db g topic p = 1)
    (hp2 : (s.t2 = .fallback ∨ s.t2 = .done) → countKey s.db g topic p = 1) :
    (raceStep g topic p off1 off2 s b).t1 ≠ .failed ∧
    (raceStep g topic p off1 off2 s b).t2 ≠ .failed ∧
    ((raceStep g topic p off1 off2 s b).t1 ≠ .start →
      ((raceStep g topic p off1 off2 s b).db).offsets.isSome) ∧
    ((raceStep g topic p off1 off2 s b).t2 ≠ .start →
      ((raceStep g topic p off1 off2 s b).db).offsets.isSome) ∧
    countKey ((raceStep g topic p off1 off2 s b).db) g topic p ≤ 1 ∧
    (((raceStep g topic p off1 off2 s b).t1 = .fallback ∨
        (raceStep g topic p off1 off2 s b).t1 = .done) →
      countKey ((raceStep g topic p off1 off2 s b).db) g topic p = 1) ∧
    (((raceStep g topic p off1 off2 s b).t2 = .fallback ∨
        (raceStep g topic p off1 off2 s b).t2 = .done) →
      countKey ((raceStep g topic p off1 off2 s b).db) g topic p = 1) := by
  cases b with
  | true =>
    obtain ⟨A, B, C, D, E, F⟩ := commitStepOn_props g topic p off1 s.t1 s.db h1f h1s hc hp1
    have hr : raceStep g topic p off1 off2 s true =
        ⟨(commitStepOn g topic p off1 s.t1 s.db).1, s.t2,
          (commitStepOn g topic p off1 s.t1 s.db).2⟩ := rfl
    rw [hr]
    refine ⟨A, h2f, B, fun h2 => F (h2s h2), C, D, fun h => ?_⟩
    have h1 := hp2 h
    show countKey ((commitStepOn g topic p off1 s.t1 s.db).2) g topic p = 1
    omega
  | false =>
    obtain ⟨A, B, C, D, E, F⟩ := commitStepOn_props g topic p off2 s.t2 s.db h2f h2s hc hp2
    have hr : raceStep g topic p off1 off2 s false =
        ⟨s.t1, (commitStepOn g topic p off2 s.t2 s.db).1,
          (commitStepOn g topic p off2 s.t2 s.db).2⟩ := rfl
    rw [hr]
    refine ⟨h1f, A, fun h1 => F (h1s h1), B, C, fun h => ?_, D⟩
    have h1 := hp1 h
    show countKey ((commitStepOn g topic p off2 s.t2 s.db).2) g topic p = 1
    omega

theorem raceRun_inv (g topic : String) (p : Nat) (off1 off2 : Int) (sched : List Bool) :
    ∀ s : RaceState,
      s.t1 ≠ .failed → s.t2 ≠ .failed →
      (s.t1 ≠ .start → s.db.offsets.isSome) →
      (s.t2 ≠ .start → s.db.offsets.isSome) →
      countKey s.db g topic p ≤ 1 →
      ((s.t1 = .fallback ∨ s.t1 = .done) → countKey s.db g topic p = 1) →
      ((s.t2 = .fallback ∨ s.t2 = .done) → countKey s.db g topic p = 1) →
      (raceRun g topic p off1 off2 sched s).t1 ≠ .failed ∧
      (raceRun g topic p off1 off2 sched s).t2 ≠ .failed ∧
      countKey ((raceRun g topic p off1 off2 sched s).db) g topic p ≤ 1 ∧
      (((raceRun g topic p off1 off2 sched s).t1 = .fallback ∨
          (raceRun g topic p off1 off2 sched s).t1 = .done) →
        countKey ((raceRun g topic p off1 off2 sched s).db) g topic p = 1) ∧
      (((raceRun g topic p off1 off2 sched s).t2 = .fallback ∨
          (raceRun g topic p off1 off2 sched s).t2 = .done) →
        countKey ((raceRun g topic p off1 off2 sched s).db) g topic p = 1) := by
  induction sched with
  | nil =>
    intro s h1f h2f h1s h2s hc hp1 hp2
    exact ⟨h1f, h2f, hc, hp1, hp2⟩
  | cons b tl ih =>
    intro s h1f h2f h1s h2s hc hp1 hp2
    obtain ⟨A1, A2, B1, B2, C, D1, D2⟩ :=
      raceStep_inv g topic p off1 off2 s b h1f h2f h1s h2s hc hp1 hp2
    have hcons : raceRun g topic p off1 off2 (b :: tl) s =
        raceRun g topic p off1 off2 tl (raceStep g topic p off1 off2 s b) := rfl
    rw [hcons]
    exact ih (raceStep g topic p off1 off2 s b) A1 A2 B1 B2 C D1 D2

/-! ### Claim theorems -/

/-- **C8, counterexample.** The claim says a topic containing a quote
character is rejected (send/ensureTable fails) rather than having the quote
embedded into the generated table identifier.  At the concrete topic `a"b`,
`ensureTable` performs no validation: it proceeds normally and the SQL it
emits embeds the quote verbatim inside the double-quoted identifier, whose
lexed content is therefore the truncated `klite_a`, not the intended table
name. -/
theorem c8_quote_counterexample :
    ('"' ∈ ("a\"b" : String).data) ∧
    (ensureTable "a\"b" 0 producer0 db0).1.ensuredTables = ["klite_a\"b_0"] ∧
    createTableSQL "a\"b" 0 =
      "CREATE TABLE IF NOT EXISTS \"klite_a\"b_0\" ( id INTEGER PRIMARY KEY AUTOINCREMENT, data BLOB NOT NULL, created DATETIME DEFAULT CURRENT_TIMESTAMP )" ∧
    firstQuotedIdent (createTableSQL "a\"b" 0) = "klite_a" ∧
    firstQuotedIdent (createTableSQL "a\"b" 0) ≠ tableName "a\"b" 0 := by
  refine ⟨by decide, by decide, by decide, by decide, by decide⟩

/-- **C8, amended.** The producer performs no topic validation: for every
topic and partition, `ensureTable` proceeds (memoizing the table name) and
interpolates the topic verbatim into the quoted identifier of the emitted
CREATE TABLE statement; when the topic contains a quote character the
quoted-identifier region of that SQL therefore lexes to a proper prefix cut
at the embedded quote — not the intended table name — so any rejection can
only come from the store parsing the malformed statement, not from the
producer. -/
theorem c8_quote_embedded (topic : String) (p : Nat) (hq : '"' ∈ topic.data) :
    firstQuotedIdent (createTableSQL topic p) ≠ tableName topic p ∧
    (ensureTable topic p producer0 db0).1.ensuredTables = [tableName topic p] := by
  constructor
  · have hqtn : '"' ∈ (tableName topic p).data := quote_mem_tableName topic p hq
    have hP : ∀ a ∈ "CREATE TABLE IF NOT EXISTS ".data, (decide (a ≠ '"')) = true := by decide
    unfold firstQuotedIdent
    rw [createTableSQL_data, dropWhile_append_of_all _ _ _ hP]
    have hstop : List.dropWhile (fun c => decide (c ≠ '"'))
        ('"' :: ((tableName topic p).data ++
          '"' :: " ( id INTEGER PRIMARY KEY AUTOINCREMENT, data BLOB NOT NULL, created DATETIME DEFAULT CURRENT_TIMESTAMP )".data)) =
        '"' :: ((tableName topic p).data ++
          '"' :: " ( id INTEGER PRIMARY KEY AUTOINCREMENT, data BLOB NOT NULL, created DATETIME DEFAULT CURRENT_TIMESTAMP )".data) := by
      simp [List.dropWhile]
    rw [hstop]
    simp only [List.drop_succ_cons, List.drop_zero]
    rw [takeWhile_append_of_far _ _ _ ⟨'"', hqtn, by simp⟩]
    intro hc
    have : List.takeWhile (fun c => decide (c ≠ '"')) (tableName topic p).data
        = (tableName topic p).data := congrArg String.data hc
    exact takeWhile_ne_self _ _ ⟨'"', hqtn, by simp⟩ this
  · simp [ensureTable, producer0, db0]

/-- **C8 amended, witness** at topic `a"b`, partition 0. -/
theorem c8_quote_embedded_witness :
    firstQuotedIdent (createTableSQL "a\"b" 0) ≠ tableName "a\"b" 0 ∧
    (ensureTable "a\"b" 0 producer0 db0).1.ensuredTables = [tableName "a\"b" 0] :=
  c8_quote_embedded "a\"b" 0 (by decide)

/-- **C9.** `parseInterval` accepts exactly the strings matching
``^\d+(ms|s|m)$``: a nonempty all-digit run followed by one of the three
units, producing the digit value scaled by 1 / 1000 / 60000; every other
string is a configuration error. -/
theorem c9_parseInterval_exact :
    (∀ (s : String) (v : Nat),
      parseInterval s = .ok v ↔
        ∃ d : List Char, d ≠ [] ∧ (∀ c ∈ d, c.isDigit = true) ∧
          ((s.data = d ++ ['m', 's'] ∧ v = digitsVal d) ∨
           (s.data = d ++ ['s'] ∧ v = digitsVal d * 1000) ∨
           (s.data = d ++ ['m'] ∧ v = digitsVal d * 60000))) ∧
    parseInterval "100ms" = .ok 100 ∧ parseInterval "5s" = .ok 5000 ∧
    parseInterval "2m" = .ok 120000 ∧
    (∀ s : String, (∀ v, parseInterval s ≠ .ok v) → ∃ e, parseInterval s = .error e) := by
  refine ⟨?_, by rfl, by rfl, by rfl, ?_⟩
  · intro s v
    constructor
    · intro h
      simp only [parseInterval] at h
      by_cases h1 : (s.data.takeWhile Char.isDigit).isEmpty
      · rw [if_pos h1] at h
        exact Except.noConfusion h
      · rw [if_neg h1] at h
        have hne : s.data.takeWhile Char.isDigit ≠ [] := by
          simpa [List.isEmpty_iff] using h1
        have hdigs : ∀ c ∈ s.data.takeWhile Char.isDigit, c.isDigit = true :=
          fun c hc => mem_takeWhile_imp _ _ _ hc
        by_cases h2 : s.data.dropWhile Char.isDigit = ['m', 's']
        · rw [if_pos h2] at h
          injection h with h
          have hsd : s.data = s.data.takeWhile Char.isDigit ++ ['m', 's'] := by
            rw [← h2]
            exact (List.takeWhile_append_dropWhile Char.isDigit s.data).symm
          exact ⟨_, hne, hdigs, Or.inl ⟨hsd, h.symm⟩⟩
        · rw [if_neg h2] at h
          by_cases h3 : s.data.dropWhile Char.isDigit = ['s']
          · rw [if_pos h3] at h
            injection h with h
            have hsd : s.data = s.data.takeWhile Char.isDigit ++ ['s'] := by
              rw [← h3]
              exact (List.takeWhile_append_dropWhile Char.isDigit s.data).symm
            exact ⟨_, hne, hdigs, Or.inr (Or.inl ⟨hsd, h.symm⟩)⟩
          · rw [if_neg h3] at h
            by_cases h4 : s.data.dropWhile Char.isDigit = ['m']
            · rw [if_pos h4] at h
              injection h with h
              have hsd : s.data = s.data.takeWhile Char.isDigit ++ ['m'] := by
                rw [← h4]
                exact (List.takeWhile_append_dropWhile Char.isDigit s.data).symm
              exact ⟨_, hne, hdigs, Or.inr (Or.inr ⟨hsd, by omega⟩)⟩
            · rw [if_neg h4] at h
              exact Except.noConfusion h
    · rintro ⟨d, hne, hdig, hcase⟩
      have hE : d.isEmpty = false := by simpa [List.isEmpty_iff] using hne
      have hm : Char.isDigit 'm' = false := by decide
      have hs' : Char.isDigit 's' = false := by decide
      rcases hcase with ⟨hs, hv⟩ | ⟨hs, hv⟩ | ⟨hs, hv⟩
      · have ht : List.takeWhile Char.isDigit s.data = d := by
          rw [hs, takeWhile_append_of_all _ _ _ hdig]
          simp [List.takeWhile, hm]
        have hdr : List.dropWhile Char.isDigit s.data = ['m', 's'] := by
          rw [hs, dropWhile_append_of_all _ _ _ hdig]
          simp [List.dropWhile, hm]
        simp [parseInterval, ht, hdr, hE, hv]
      · have ht : List.takeWhile Char.isDigit s.data = d := by
          rw [hs, takeWhile_append_of_all _ _ _ hdig]
          simp [List.takeWhile, hs']
        have hdr : List.dropWhile Char.isDigit s.data = ['s'] := by
          rw [hs, dropWhile_append_of_all _ _ _ hdig]
          simp [List.dropWhile, hs']
        simp [parseInterval, ht, hdr, hE, hv]
      · have ht : List.takeWhile Char.isDigit s.data = d := by
          rw [hs, takeWhile_append_of_all _ _ _ hdig]
          simp [List.takeWhile, hm]
        have hdr : List.dropWhile Char.isDigit s.data = ['m'] := by
          rw [hs, dropWhile_append_of_all _ _ _ hdig]
          simp [List.dropWhile, hm]
        simp [parseInterval, ht, hdr, hE, hv]
        omega
  · intro s h
    cases hp : parseInterval s with
    | ok v => exact absurd hp (h v)
    | error e => exact ⟨e, rfl⟩

/-- **C5.** For every topic and partition, `fetch` returns an empty list
(not an error) when the partition table does not exist — the thrown
"no such table" store error is swallowed by the catch block — and every
other store error raised during the fetch query propagates to the caller
unchanged. -/
theorem c5_fetch_error_handling :
    (∀ (cs : ConsumerState) (db : DB) (topic : String) (p : Nat) (opts : Option Int),
      db.getTable (tableName topic p) = none →
      (consumerFetch cs db topic p opts).2.2 = .ok []) ∧
    (∀ e : Err, strIncludes e.message "no such table" = false → fetchCatch e = .error e) := by
  constructor
  · intro cs db topic p opts h
    have htab : ((ensureOffsetTable cs db).2).getTable (tableName topic p) = none := by
      unfold DB.getTable at h ⊢
      rw [(ensureOffsetTable_spec cs db).2.2.1]
      exact h
    have hsel : selectRows ((ensureOffsetTable cs db).2) (tableName topic p)
        (getLastOffset cs db topic p).2.2 (jsOrNum opts 100) =
        .error ⟨"no such table: " ++ tableName topic p⟩ := by
      unfold selectRows
      rw [htab]
    simp only [consumerFetch, getLastOffset_db, hsel]
    simp only [fetchCatch, noSuchTable_decomp, strIncludes_self_append, if_true]
  · intro e h
    simp [fetchCatch, h]

/-- **C5, witness**: a fetch from a topic with no table yields `ok []`, and
an unrelated store error is re-raised. -/
theorem c5_fetch_error_handling_witness :
    (consumerFetch (consumer0 "g") db0 "missing" 0 none).2.2 = .ok [] ∧
    fetchCatch ⟨"database is locked"⟩ = .error ⟨"database is locked"⟩ :=
  ⟨c5_fetch_error_handling.1 (consumer0 "g") db0 "missing" 0 none rfl,
   c5_fetch_error_handling.2 ⟨"database is locked"⟩ (by decide)⟩

/-- **C10.** A falsy `maxMessages` (0, or an absent/null/undefined field)
selects the default limit 100 via `options.maxMessages || 100`, so `fetch`
with `maxMessages = 0` behaves exactly like `maxMessages = 100` — it can
return up to 100 messages rather than an empty list, as the concrete
three-message run shows. -/
theorem c10_maxMessages_falsy :
    (∀ (cs : ConsumerState) (db : DB) (topic : String) (p : Nat),
      consumerFetch cs db topic p (some 0) = consumerFetch cs db topic p (some 100)) ∧
    (∀ (cs : ConsumerState) (db : DB) (topic : String) (p : Nat),
      consumerFetch cs db topic p none = consumerFetch cs db topic p (some 100)) ∧
    jsOrNum (some 0) 100 = 100 ∧ jsOrNum none 100 = 100 ∧
    (consumerFetch (consumer0 "g") dbDemo "test" 0 (some 0)).2.2 =
      .ok [⟨1, 1⟩, ⟨2, 2⟩, ⟨3, 3⟩] := by
  exact ⟨fun cs db topic p => rfl, fun cs db topic p => rfl, rfl, rfl, rfl⟩

/-- **C3.** `getLastOffset` returns the stored `commit_offset` when a row
exists for (group, topic, partition) and -1 when it is absent; after
`commit(topic, partition, k)` from any consistent consumer state, a fresh
consumer instance of the same group fetches only messages with offset
greater than k; and with no stored row a fresh consumer fetches from the
beginning of the log, whose offsets are all at least 1. -/
theorem c3_offset_resume (topic : String) (p : Nat) :
    (∀ (cs : ConsumerState) (db : DB) (row : OffsetRow),
      findOffsetRow (db.offsets.getD []) cs.group topic p = some row →
      (getLastOffset cs db topic p).2.2 = row.commit_offset) ∧
    (∀ (cs : ConsumerState) (db : DB),
      findOffsetRow (db.offsets.getD []) cs.group topic p = none →
      (getLastOffset cs db topic p).2.2 = -1) ∧
    (∀ (cs : ConsumerState) (db : DB) (k : Int) (opts : Option Int)
        (cs' : ConsumerState) (db' : DB) (msgs : List FetchedMsg),
      (offsetKey cs.group topic p ∈ cs.committedOffsets →
        (findOffsetRow (db.offsets.getD []) cs.group topic p).isSome) →
      (cs.offsetTableEnsured = true → db.offsets.isSome) →
      commit cs db topic p k = .ok (cs', db') →
      (consumerFetch (consumer0 cs.group) db' topic p opts).2.2 = .ok msgs →
      ∀ m ∈ msgs, k < (m.offset : Int)) ∧
    (∀ (g : String) (db : DB) (opts : Option Int) (tbl : PartTable) (msgs : List FetchedMsg),
      findOffsetRow (db.offsets.getD []) g topic p = none →
      db.getTable (tableName topic p) = some tbl →
      (∀ r ∈ tbl.rows, 1 ≤ r.id) →
      (consumerFetch (consumer0 g) db topic p opts).2.2 = .ok msgs →
      msgs = (limTake (jsOrNum opts 100) (sortById tbl.rows)).map
          (fun row => ⟨row.id, decode row.data⟩) ∧
      ∀ m ∈ msgs, 1 ≤ m.offset) := by
  refine ⟨?_, ?_, ?_, ?_⟩
  · intro cs db row h
    rw [getLastOffset_value]
    unfold offsetView
    rw [h]
  · intro cs db h
    rw [getLastOffset_value]
    unfold offsetView
    rw [h]
  · intro cs db k opts cs' db' msgs hc ht hcommit hfetch
    obtain ⟨cs'', db'', hcommit', _, _, hview⟩ := commit_spec cs db topic p k hc ht
    rw [hcommit] at hcommit'
    injection hcommit' with hpair
    have hdb : db'' = db' := (congrArg Prod.snd hpair.symm)
    rw [hdb] at hview
    have hmem := consumerFetch_ok_mem (consumer0 cs.group) db' topic p opts msgs hfetch
    intro m hm
    have := hmem m hm
    rw [show (consumer0 cs.group).group = cs.group from rfl, hview] at this
    exact this
  · intro g db opts tbl msgs hfind htbl hpos hfetch
    have hlo : (getLastOffset (consumer0 g) db topic p).2.2 = -1 := by
      rw [getLastOffset_value]
      unfold offsetView
      rw [show (consumer0 g).group = g from rfl, hfind]
    have htbl' : ((ensureOffsetTable (consumer0 g) db).2).getTable (tableName topic p)
        = some tbl := by
      unfold DB.getTable at htbl ⊢
      rw [(ensureOffsetTable_spec (consumer0 g) db).2.2.1]
      exact htbl
    have hfil : (sortById tbl.rows).filter
        (fun r => decide ((-1 : Int) < (r.id : Int))) = sortById tbl.rows := by
      apply List.filter_eq_self.mpr
      intro r hr
      have : r ∈ tbl.rows := (mem_sortById r tbl.rows).mp hr
      have h1 := hpos r this
      exact decide_eq_true (by omega)
    have hsel : selectRows ((ensureOffsetTable (consumer0 g) db).2) (tableName topic p)
        ((getLastOffset (consumer0 g) db topic p).2.2) (jsOrNum opts 100) =
        .ok (limTake (jsOrNum opts 100) (sortById tbl.rows)) := by
      unfold selectRows
      rw [htbl', hlo]
      simp only [hfil]
    simp only [consumerFetch, getLastOffset_db, hsel, Except.ok.injEq] at hfetch
    constructor
    · exact hfetch.symm
    · intro m hm
      rw [← hfetch] at hm
      obtain ⟨row, hrow, hmrow⟩ := List.mem_map.mp hm
      have h1 := hpos row ((mem_sortById row tbl.rows).mp (mem_limTake _ _ _ hrow))
      rw [← hmrow]
      exact h1

/-- **C3, witness**: on a three-message log, after `commit(test, 0, 2)` a
fresh consumer of the same group sees only offsets above 2. -/
theorem c3_offset_resume_witness :
    ∀ m ∈ ([⟨3, 3⟩] : List FetchedMsg), (2 : Int) < (m.offset : Int) :=
  (c3_offset_resume "test" 0).2.2.1 (consumer0 "g") dbDemo 2 none
    ⟨"g", true, ["g:test:0"]⟩
    ⟨[("klite_test_0", ⟨3, [⟨1, [1]⟩, ⟨2, [2]⟩, ⟨3, [3]⟩]⟩)],
      some [⟨"g", "test", 0, 2⟩]⟩ [⟨3, 3⟩]
    (fun h => absurd h (by simp [consumer0]))
    (fun h => absurd h (by simp [consumer0]))
    rfl rfl

/-- **C2.** In every `processPartition` cycle whose fetch succeeds, the
consumer's commit is invoked iff the HTTP POST returned a 2xx (`ok`)
response; an empty fetched batch causes no HTTP call and no commit; a
nonempty batch always causes the HTTP call; and whenever no commit is
invoked (non-2xx response or thrown transport error) the persisted commit
point does not advance. -/
theorem c2_processPartition_commit (cs : ConsumerState) (db : DB) (topic : String)
    (p : Nat) (bs : Int) (http : HttpResult) (msgs : List FetchedMsg)
    (hf : (consumerFetch cs db topic p (some bs)).2.2 = .ok msgs) :
    ∃ out, processPartition cs db topic p bs http = .ok out ∧
      (out.commitCalled = true ↔ msgs ≠ [] ∧ ∃ st, http = .resp st ∧ respOk st = true) ∧
      (msgs = [] → out.httpCalled = false ∧ out.commitCalled = false) ∧
      (msgs ≠ [] → out.httpCalled = true) ∧
      (out.commitCalled = false →
        offsetView out.db cs.group topic p = offsetView db cs.group topic p) := by
  have hview := consumerFetch_offsetView cs db topic p (some bs) cs.group topic p
  simp only [processPartition, hf]
  cases msgs with
  | nil =>
    refine ⟨⟨false, false, (consumerFetch cs db topic p (some bs)).1,
      (consumerFetch cs db topic p (some bs)).2.1⟩, by simp, ?_, ?_, ?_, ?_⟩
    · simp
    · intro _; exact ⟨rfl, rfl⟩
    · intro h; exact absurd rfl h
    · intro _; exact hview
  | cons m tl =>
    cases http with
    | thrown e =>
      refine ⟨⟨true, false, (consumerFetch cs db topic p (some bs)).1,
        (consumerFetch cs db topic p (some bs)).2.1⟩, by simp, ?_, ?_, ?_, ?_⟩
      · simp
      · intro h; exact absurd h (List.cons_ne_nil m tl)
      · intro _; rfl
      · intro _; exact hview
    | resp st =>
      by_cases ho : respOk st
      · cases hcm : commit (consumerFetch cs db topic p (some bs)).1
            (consumerFetch cs db topic p (some bs)).2.1 topic p
            (((m :: tl).getLastD ⟨0, 0⟩).offset : Int) with
        | ok pr =>
          refine ⟨⟨true, true, pr.1, pr.2⟩, ?_, ?_, ?_, ?_, ?_⟩
          · simp [ho, hcm]
          · exact iff_of_true rfl ⟨List.cons_ne_nil m tl, st, rfl, ho⟩
          · intro h; exact absurd h (List.cons_ne_nil m tl)
          · intro _; rfl
          · intro h; exact absurd h (by simp)
        | error e =>
          refine ⟨⟨true, true, (consumerFetch cs db topic p (some bs)).1,
            (consumerFetch cs db topic p (some bs)).2.1⟩, ?_, ?_, ?_, ?_, ?_⟩
          · simp [ho, hcm]
          · exact iff_of_true rfl ⟨List.cons_ne_nil m tl, st, rfl, ho⟩
          · intro h; exact absurd h (List.cons_ne_nil m tl)
          · intro _; rfl
          · intro h; exact absurd h (by simp)
      · refine ⟨⟨true, false, (consumerFetch cs db topic p (some bs)).1,
          (consumerFetch cs db topic p (some bs)).2.1⟩, by simp [ho], ?_, ?_, ?_, ?_⟩
        · simp only [Bool.false_eq_true, false_iff]
          rintro ⟨-, st', hst, hok⟩
          injection hst with hst
          rw [← hst] at hok
          exact ho hok
        · intro h; exact absurd h (List.cons_ne_nil m tl)
        · intro _; rfl
        · intro _; exact hview

/-- **C2, witness**: an empty partition produces no HTTP call and no
commit even when the endpoint would have answered 200. -/
theorem c2_processPartition_commit_witness :
    ∃ out, processPartition (consumer0 "g") db0 "empty" 0 10 (.resp 200) = .ok out ∧
      (out.commitCalled = true ↔ ([] : List FetchedMsg) ≠ [] ∧
        ∃ st, HttpResult.resp 200 = .resp st ∧ respOk st = true) ∧
      (([] : List FetchedMsg) = [] → out.httpCalled = false ∧ out.commitCalled = false) ∧
      (([] : List FetchedMsg) ≠ [] → out.httpCalled = true) ∧
      (out.commitCalled = false →
        offsetView out.db (consumer0 "g").group "empty" 0 = offsetView db0 (consumer0 "g").group "empty" 0) :=
  c2_processPartition_commit (consumer0 "g") db0 "empty" 0 10 (.resp 200) [] rfl

/-- **C1.** N sends to the same (topic, partition) from one producer
instance, flushed as one batch, resolve the i-th waiter (0-based, call
order) with offset `firstInsertRowid + i`; on a fresh partition the
resolved offsets are exactly the list [1, …, N], i.e. the set
{x | 1 ≤ x ≤ N}. -/
theorem c1_dense_offsets (topic : String) (partition : Nat) (msgs : List Msg)
    (ps : ProducerState) (db : DB)
    (hkey : lookupKey ps.pendingBatches (topic ++ ":" ++ toString partition) = none)
    (hens : tableName topic partition ∈ ps.ensuredTables →
      (db.getTable (tableName topic partition)).isSome)
    (hne : msgs ≠ []) :
    (flushBatch topic (toString partition) (sendMany topic partition msgs ps db).1
        (sendMany topic partition msgs ps db).2).2.2 =
      some (.ok (List.range'
        (((db.getTable (tableName topic partition)).getD PartTable.empty).seq + 1)
        msgs.length)) ∧
    (((db.getTable (tableName topic partition)).getD PartTable.empty).seq = 0 →
      (flushBatch topic (toString partition) (sendMany topic partition msgs ps db).1
          (sendMany topic partition msgs ps db).2).2.2 =
        some (.ok (List.range' 1 msgs.length)) ∧
      ∀ x : Nat, x ∈ List.range' 1 msgs.length ↔ 1 ≤ x ∧ x ≤ msgs.length) := by
  cases msgs with
  | nil => exact absurd rfl hne
  | cons m tl =>
    obtain ⟨hk1, hm1, hget1, _⟩ := send_fresh topic partition m ps db hens hkey
    obtain ⟨hk2, hdb2⟩ := sendMany_loop topic partition tl
      (send topic partition m ps db).1 (send topic partition m ps db).2 [m]
      hk1 hm1 (by rw [hget1]; rfl)
    have hcons : sendMany topic partition (m :: tl) ps db =
        sendMany topic partition tl (send topic partition m ps db).1
          (send topic partition m ps db).2 := rfl
    have hk2' : lookupKey ((sendMany topic partition (m :: tl) ps db).1).pendingBatches
        (topic ++ ":" ++ toString partition) = some ⟨m :: tl⟩ := by
      rw [hcons, hk2]
      simp
    have hgetF : ((sendMany topic partition (m :: tl) ps db).2).getTable
        (tableName topic partition) =
        some ((db.getTable (tableName topic partition)).getD PartTable.empty) := by
      rw [hcons, hdb2, hget1]
    obtain ⟨db', hrun, _, _, _⟩ := batchInsert_ok (tableName topic partition)
      ((m :: tl).map encode) ((sendMany topic partition (m :: tl) ps db).2)
      ((db.getTable (tableName topic partition)).getD PartTable.empty) hgetF
    simp only [List.length_map] at hrun
    have hmain : (flushBatch topic (toString partition)
        (sendMany topic partition (m :: tl) ps db).1
        (sendMany topic partition (m :: tl) ps db).2).2.2 =
        some (.ok (List.range'
          (((db.getTable (tableName topic partition)).getD PartTable.empty).seq + 1)
          (m :: tl).length)) := by
      have hrun' : DB.batchInsert ((sendMany topic partition (m :: tl) ps db).2)
          ("klite_" ++ topic ++ "_" ++ toString partition)
          (List.map encode (m :: tl)) =
          .ok (db', List.range'
            (((db.getTable (tableName topic partition)).getD PartTable.empty).seq + 1)
            (m :: tl).length) := by
        have : tableName topic partition = "klite_" ++ topic ++ "_" ++ toString partition := rfl
        rw [← this]
        exact hrun
      have hhead : (List.range'
          (((db.getTable (tableName topic partition)).getD PartTable.empty).seq + 1)
          (m :: tl).length).head? =
          some (((db.getTable (tableName topic partition)).getD PartTable.empty).seq + 1) := by
        simp [List.range'_succ]
      simp only [flushBatch, hk2', List.isEmpty_cons, Bool.false_eq_true, if_false, hrun',
        hhead]
      rw [List.range'_eq_map_range]
    refine ⟨hmain, ?_⟩
    intro h0
    rw [h0] at hmain
    exact ⟨hmain, fun x => mem_range'_one (m :: tl).length x⟩

/-- **C1, witness**: three sends on a fresh partition resolve with offsets
[1, 2, 3]. -/
theorem c1_dense_offsets_witness :
    ((flushBatch "orders" (toString 0)
        (sendMany "orders" 0 [10, 20, 30] producer0 db0).1
        (sendMany "orders" 0 [10, 20, 30] producer0 db0).2).2.2 =
      some (.ok (List.range'
        (((db0.getTable (tableName "orders" 0)).getD PartTable.empty).seq + 1)
        ([10, 20, 30] : List Msg).length))) ∧
    (((db0.getTable (tableName "orders" 0)).getD PartTable.empty).seq = 0 →
      (flushBatch "orders" (toString 0)
          (sendMany "orders" 0 [10, 20, 30] producer0 db0).1
          (sendMany "orders" 0 [10, 20, 30] producer0 db0).2).2.2 =
        some (.ok (List.range' 1 ([10, 20, 30] : List Msg).length)) ∧
      ∀ x : Nat, x ∈ List.range' 1 ([10, 20, 30] : List Msg).length ↔
        1 ≤ x ∧ x ≤ ([10, 20, 30] : List Msg).length) :=
  c1_dense_offsets "orders" 0 [10, 20, 30] producer0 db0 rfl
    (fun h => absurd h (List.not_mem_nil _)) (by simp)

/-- **C6.** `sendBatch` issues its multi-insert immediately, returning
`{firstOffset, count}` with `count = payloads.length` and the i-th payload
stored at rowid `firstOffset + i`, while leaving the pending auto-batches
untouched; in the spec's scenario a buffered `send` followed by
`sendBatch` of two payloads yields `{firstOffset := 1, count := 2}` and the
buffered send later resolves with offset 3. -/
theorem c6_sendBatch_bypass (topic : String) (partition : Nat) (msgs : List Msg)
    (ps : ProducerState) (db : DB) (hne : msgs ≠ [])
    (hens : tableName topic partition ∈ ps.ensuredTables →
      (db.getTable (tableName topic partition)).isSome) :
    (sendBatch topic partition msgs ps db).2.2 =
      .ok (((db.getTable (tableName topic partition)).getD PartTable.empty).seq + 1,
        msgs.length) ∧
    ((sendBatch topic partition msgs ps db).1).pendingBatches = ps.pendingBatches ∧
    (∃ tbl, ((sendBatch topic partition msgs ps db).2.1).getTable
        (tableName topic partition) = some tbl ∧
      tbl.rows = ((db.getTable (tableName topic partition)).getD PartTable.empty).rows ++
        List.zipWith Row.mk
          (List.range'
            (((db.getTable (tableName topic partition)).getD PartTable.empty).seq + 1)
            msgs.length)
          (msgs.map encode)) ∧
    (sendBatch "t" 0 [11, 12] (send "t" 0 10 producer0 db0).1
        (send "t" 0 10 producer0 db0).2).2.2 = .ok (1, 2) ∧
    (flushBatch "t" "0"
        (sendBatch "t" 0 [11, 12] (send "t" 0 10 producer0 db0).1
          (send "t" 0 10 producer0 db0).2).1
        (sendBatch "t" 0 [11, 12] (send "t" 0 10 producer0 db0).1
          (send "t" 0 10 producer0 db0).2).2.1).2.2 = some (.ok [3]) := by
  obtain ⟨_, hpend, hget, _⟩ := ensureTable_spec topic partition ps db hens
  obtain ⟨db', hrun, hget', _, _⟩ := batchInsert_ok (tableName topic partition)
    (msgs.map encode) ((ensureTable topic partition ps db).2)
    ((db.getTable (tableName topic partition)).getD PartTable.empty) hget
  simp only [List.length_map] at hrun
  obtain ⟨hseq, hrows⟩ := insertAll_spec (msgs.map encode)
    ((db.getTable (tableName topic partition)).getD PartTable.empty)
  cases msgs with
  | nil => exact absurd rfl hne
  | cons m tl =>
    have hhead : (List.range'
        (((db.getTable (tableName topic partition)).getD PartTable.empty).seq + 1)
        (m :: tl).length).head? =
        some (((db.getTable (tableName topic partition)).getD PartTable.empty).seq + 1) := by
      simp [List.range'_succ]
    have hsb : sendBatch topic partition (m :: tl) ps db =
        ((ensureTable topic partition ps db).1, db',
          .ok (((db.getTable (tableName topic partition)).getD PartTable.empty).seq + 1,
            (m :: tl).length)) := by
      simp only [sendBatch, hrun, hhead]
    refine ⟨?_, ?_,
      ⟨((db.getTable (tableName topic partition)).getD PartTable.empty).insertAll
          (List.map encode (m :: tl)), ?_, ?_⟩, rfl, rfl⟩
    · rw [hsb]
    · rw [hsb]
      exact hpend
    · show ((sendBatch topic partition (m :: tl) ps db).2.1).getTable
        (tableName topic partition) = some _
      rw [hsb]
      exact hget'
    · rw [hrows]
      simp

/-- **C6, witness**: sendBatch of two payloads on a fresh partition returns
firstOffset 1 and count 2 without disturbing the (empty) pending map. -/
theorem c6_sendBatch_bypass_witness :
    ((sendBatch "t" 0 [11, 12] producer0 db0).2.2 =
      .ok (((db0.getTable (tableName "t" 0)).getD PartTable.empty).seq + 1,
        ([11, 12] : List Msg).length)) ∧
    ((sendBatch "t" 0 [11, 12] producer0 db0).1).pendingBatches = producer0.pendingBatches :=
  ⟨(c6_sendBatch_bypass "t" 0 [11, 12] producer0 db0 (by simp)
      (fun h => absurd h (List.not_mem_nil _))).1,
   (c6_sendBatch_bypass "t" 0 [11, 12] producer0 db0 (by simp)
      (fun h => absurd h (List.not_mem_nil _))).2.1⟩

/-- **C7 (code bug).** `flush()` rebuilds each pending key from only the
first two `split(":")` segments, so a pending batch whose topic itself
contains a colon is never flushed: after `send("a:b", 0, …)`, `flush`
completes having settled nothing (outcome `none`) and the batch — with its
unsettled waiter — is still pending, while for a colon-free topic the same
sequence drains the batch and resolves its waiter. -/
theorem c7_flush_misses_colon_topic :
    ((flush (send "a:b" 0 7 producer0 db0).1 (send "a:b" 0 7 producer0 db0).2).1).pendingBatches
        = [("a:b:0", ⟨[7]⟩)] ∧
    (flush (send "a:b" 0 7 producer0 db0).1 (send "a:b" 0 7 producer0 db0).2).2.2 = [none] ∧
    ((flush (send "ab" 0 7 producer0 db0).1 (send "ab" 0 7 producer0 db0).2).1).pendingBatches
        = [] ∧
    (flush (send "ab" 0 7 producer0 db0).1 (send "ab" 0 7 producer0 db0).2).2.2 =
      [some (.ok [1])] :=
  ⟨rfl, rfl, rfl, rfl⟩

/-- **C9, witness**: the rejection conjunct applied at the malformed
interval string "5h". -/
theorem c9_parseInterval_exact_witness :
    ∃ e, parseInterval "5h" = .error e :=
  c9_parseInterval_exact.2.2.2.2 "5h" (fun v h => by
    rw [show parseInterval "5h" = .error ⟨"Invalid interval format: 5h"⟩ from rfl] at h
    exact Except.noConfusion h)

/-- **C4.** `commit` issues an UPDATE when the (group, topic, partition)
key is cached as known; otherwise it attempts the INSERT and, when the
INSERT fails on the primary key, falls back to an UPDATE without surfacing
the insert error; and two fresh consumer instances of the same group
racing their first commit for the same (topic, partition) — under every
interleaving of their atomic store operations — never raise, keep at most
one offset row, hold exactly one row once both have completed, and do
complete under the canonical schedule. -/
theorem c4_commit_race (g topic : String) (p : Nat) :
    (∀ (cs : ConsumerState) (db : DB) (k : Int),
      cs.group = g →
      offsetKey g topic p ∈ cs.committedOffsets →
      (cs.offsetTableEnsured = true → db.offsets.isSome) →
      ∃ cs' db', commit cs db topic p k = .ok (cs', db') ∧
        cs'.committedOffsets = cs.committedOffsets ∧
        db'.offsets = some (updateRowsFn (db.offsets.getD []) g topic p k)) ∧
    (∀ (cs : ConsumerState) (db : DB) (k : Int) (r0 : OffsetRow),
      cs.group = g →
      offsetKey g topic p ∉ cs.committedOffsets →
      (cs.offsetTableEnsured = true → db.offsets.isSome) →
      findOffsetRow (db.offsets.getD []) g topic p = some r0 →
      ∃ cs' db', commit cs db topic p k = .ok (cs', db') ∧
        cs'.committedOffsets = offsetKey g topic p :: cs.committedOffsets ∧
        db'.offsets = some (updateRowsFn (db.offsets.getD []) g topic p k)) ∧
    (∀ (db₀ : DB) (off1 off2 : Int) (sched : List Bool),
      countKey db₀ g topic p = 0 →
      (raceRun g topic p off1 off2 sched ⟨.start, .start, db₀⟩).t1 ≠ .failed ∧
      (raceRun g topic p off1 off2 sched ⟨.start, .start, db₀⟩).t2 ≠ .failed ∧
      countKey ((raceRun g topic p off1 off2 sched ⟨.start, .start, db₀⟩).db) g topic p ≤ 1 ∧
      ((raceRun g topic p off1 off2 sched ⟨.start, .start, db₀⟩).t1 = .done →
        (raceRun g topic p off1 off2 sched ⟨.start, .start, db₀⟩).t2 = .done →
        countKey ((raceRun g topic p off1 off2 sched ⟨.start, .start, db₀⟩).db) g topic p = 1)) ∧
    (∀ (db₀ : DB) (off1 off2 : Int),
      countKey db₀ g topic p = 0 →
      (raceRun g topic p off1 off2 [true, true, true, false, false, false]
          ⟨.start, .start, db₀⟩).t1 = .done ∧
      (raceRun g topic p off1 off2 [true, true, true, false, false, false]
          ⟨.start, .start, db₀⟩).t2 = .done ∧
      countKey ((raceRun g topic p off1 off2 [true, true, true, false, false, false]
          ⟨.start, .start, db₀⟩).db) g topic p = 1) := by
  refine ⟨?_, ?_, ?_, ?_⟩
  · intro cs db k hg hmem ht
    obtain ⟨hg', hco, htab, hgetD⟩ := ensureOffsetTable_spec cs db
    obtain ⟨rows0, hrows⟩ := Option.isSome_iff_exists.mp (ensureOffsetTable_isSome cs db ht)
    have hrows0 : rows0 = db.offsets.getD [] := by rw [← hgetD, hrows]; rfl
    have hgg : ((ensureOffsetTable cs db).1).group = g := hg'.trans hg
    refine ⟨(ensureOffsetTable cs db).1,
      { (ensureOffsetTable cs db).2 with
        offsets := some (updateRowsFn rows0 g topic p k) }, ?_, by rw [hco], by rw [hrows0]⟩
    simp only [commit, hgg]
    rw [if_pos (show offsetKey g topic p ∈ ((ensureOffsetTable cs db).1).committedOffsets by
      rw [hco]; exact hmem)]
    simp only [DB.updateOffsetRow, hrows]
  · intro cs db k r0 hg hmem ht hfind
    obtain ⟨hg', hco, htab, hgetD⟩ := ensureOffsetTable_spec cs db
    obtain ⟨rows0, hrows⟩ := Option.isSome_iff_exists.mp (ensureOffsetTable_isSome cs db ht)
    have hrows0 : rows0 = db.offsets.getD [] := by rw [← hgetD, hrows]; rfl
    have hgg : ((ensureOffsetTable cs db).1).group = g := hg'.trans hg
    have hf : findOffsetRow rows0 g topic p = some r0 := by rw [hrows0]; exact hfind
    refine ⟨{ (ensureOffsetTable cs db).1 with
        committedOffsets := offsetKey g topic p ::
          ((ensureOffsetTable cs db).1).committedOffsets },
      { (ensureOffsetTable cs db).2 with
        offsets := some (updateRowsFn rows0 g topic p k) }, ?_, by rw [hco], by rw [hrows0]⟩
    simp only [commit, hgg]
    rw [if_neg (show offsetKey g topic p ∉ ((ensureOffsetTable cs db).1).committedOffsets by
      rw [hco]; exact hmem)]
    simp only [DB.insertOffsetRow, hrows, hf, DB.updateOffsetRow]
  · intro db₀ off1 off2 sched h0
    obtain ⟨A1, A2, C, D1, D2⟩ := raceRun_inv g topic p off1 off2 sched
      ⟨.start, .start, db₀⟩ (by simp) (by simp)
      (fun h => absurd rfl h) (fun h => absurd rfl h)
      (show countKey db₀ g topic p ≤ 1 by omega)
      (by rintro (h | h) <;> exact Phase.noConfusion h)
      (by rintro (h | h) <;> exact Phase.noConfusion h)
    exact ⟨A1, A2, C, fun h1 h2 => D1 (Or.inr h1)⟩
  · intro db₀ off1 off2 h0
    have hfind0 : findOffsetRow (db₀.offsets.getD []) g topic p = none :=
      (count_zero_iff_find_none _ g topic p).mp h0
    have e1 : raceStep g topic p off1 off2 ⟨.start, .start, db₀⟩ true =
        ⟨.ready, .start, ensureOffsetTableDB db₀⟩ := rfl
    have e2 : raceStep g topic p off1 off2 ⟨.ready, .start, ensureOffsetTableDB db₀⟩ true =
        ⟨.done, .start,
          ⟨db₀.tables, some (db₀.offsets.getD [] ++ [⟨g, topic, p, off1⟩])⟩⟩ := by
      simp [raceStep, commitStepOn, DB.insertOffsetRow, ensureOffsetTableDB, hfind0]
    have e3 : raceStep g topic p off1 off2
        ⟨.done, .start, ⟨db₀.tables, some (db₀.offsets.getD [] ++ [⟨g, topic, p, off1⟩])⟩⟩
        true =
        ⟨.done, .start,
          ⟨db₀.tables, some (db₀.offsets.getD [] ++ [⟨g, topic, p, off1⟩])⟩⟩ := rfl
    have e4 : raceStep g topic p off1 off2
        ⟨.done, .start, ⟨db₀.tables, some (db₀.offsets.getD [] ++ [⟨g, topic, p, off1⟩])⟩⟩
        false =
        ⟨.done, .ready,
          ⟨db₀.tables, some (db₀.offsets.getD [] ++ [⟨g, topic, p, off1⟩])⟩⟩ := rfl
    have e5 : raceStep g topic p off1 off2
        ⟨.done, .ready, ⟨db₀.tables, some (db₀.offsets.getD [] ++ [⟨g, topic, p, off1⟩])⟩⟩
        false =
        ⟨.done, .fallback,
          ⟨db₀.tables, some (db₀.offsets.getD [] ++ [⟨g, topic, p, off1⟩])⟩⟩ := by
      simp [raceStep, commitStepOn, DB.insertOffsetRow,
        findOffsetRow_append_new _ g topic p off1 hfind0]
    have e6 : raceStep g topic p off1 off2
        ⟨.done, .fallback,
          ⟨db₀.tables, some (db₀.offsets.getD [] ++ [⟨g, topic, p, off1⟩])⟩⟩ false =
        ⟨.done, .done,
          ⟨db₀.tables, some (updateRowsFn
            (db₀.offsets.getD [] ++ [⟨g, topic, p, off1⟩]) g topic p off2)⟩⟩ := by
      simp [raceStep, commitStepOn, DB.updateOffsetRow]
    have hrun : raceRun g topic p off1 off2 [true, true, true, false, false, false]
        ⟨.start, .start, db₀⟩ =
        ⟨.done, .done,
          ⟨db₀.tables, some (updateRowsFn
            (db₀.offsets.getD [] ++ [⟨g, topic, p, off1⟩]) g topic p off2)⟩⟩ := by
      simp only [raceRun, List.foldl_cons, List.foldl_nil, e1, e2, e3, e4, e5, e6]
    rw [hrun]
    refine ⟨rfl, rfl, ?_⟩
    show ((updateRowsFn (db₀.offsets.getD [] ++ [⟨g, topic, p, off1⟩]) g topic p
        off2).filter (fun r => offsetRowMatches r g topic p)).length = 1
    rw [filter_updateRowsFn, filter_append_new]
    have h0' : ((db₀.offsets.getD []).filter
        (fun r => offsetRowMatches r g topic p)).length = 0 := h0
    omega

/-- **C4, witness**: two fresh consumers of group g racing their first
commit for (t, 0) on an empty store both finish and leave one offset
row. -/
theorem c4_commit_race_witness :
    (raceRun "g" "t" 0 5 9 [true, true, true, false, false, false]
        ⟨.start, .start, db0⟩).t1 = .done ∧
    (raceRun "g" "t" 0 5 9 [true, true, true, false, false, false]
        ⟨.start, .start, db0⟩).t2 = .done ∧
    countKey ((raceRun "g" "t" 0 5 9 [true, true, true, false, false, false]
        ⟨.start, .start, db0⟩).db) "g" "t" 0 = 1 :=
  (c4_commit_race "g" "t" 0).2.2.2 db0 5 9 rfl

end Klite
